import Mathlib

/-!
Shallow embedding of `qif_parser.py` (py-ledger-tools).

The Python module scans a byte buffer with twelve anchored regular
expressions (compiled with `re.M`), tried in a fixed order; each match
yields a raw record (the regex's named-group dictionary), whose byte
captures are decoded as UTF-8 strings; a builder loop groups cast records
into transactions delimited by `^` records.

The embedding keeps the byte-level view: text is `List Nat` (byte values),
and string input is normalized by UTF-8 encoding exactly as
`QIFParser.parse` does (`text.encode('utf-8')`).  Each regex is translated
into an explicit matcher over the byte list; the translation follows the
backtracking behaviour of the original pattern (notes at each matcher
record where greedy matching needs no backtracking and why).
-/

namespace QIF

/-- Byte predicate for the regex class `[\d]` (ASCII digits 48..57). -/
def isDigitB (b : Nat) : Bool := 48 ≤ b && b ≤ 57

/-- Byte predicate for the regex class `[\d,]` (digit or comma 44). -/
def isNumChar (b : Nat) : Bool := isDigitB b || b == 44

/-- Capture of `.*` in byte mode without DOTALL: every byte up to (not
including) the next line feed 10, or to the end of input. -/
def takeLine (s : List Nat) : List Nat := s.takeWhile (· != 10)

/-- Bytes remaining after a `.*` capture. -/
def dropLine (s : List Nat) : List Nat := s.dropWhile (· != 10)

/-- Matcher for the trailing `[\r]?$` of every record pattern under `re.M`:
`$` is zero width and holds before a line feed or at the end of input, and
the optional carriage return 13 is consumed (greedily) only when `$` holds
right after it.  Returns how many bytes the `[\r]?` consumed (0 or 1). -/
def matchLineEnd : List Nat → Option Nat
  | [] => some 0
  | b :: rest =>
    if b == 10 then some 0
    else if b == 13 then
      match rest with
      | [] => some 1
      | c :: _ => if c == 10 then some 1 else none
    else none

/-- Matcher for the unsigned part `[\d,]+(\.[\d]+)?` of the amount pattern.
Greedy matching needs no backtracking here: shrinking `[\d,]+` or the
fraction digits always leaves a digit, comma or `.` in front of the
required `[\r]?$`/`\n` continuation, which can never match those bytes.
Returns the captured bytes and the remaining input. -/
def matchNumBody (s : List Nat) : Option (List Nat × List Nat) :=
  let ds := s.takeWhile isNumChar
  let s2 := s.dropWhile isNumChar
  if ds.isEmpty then none
  else
    match s2 with
    | 46 :: r2 =>
      let fs := r2.takeWhile isDigitB
      if fs.isEmpty then some (ds, s2)
      else some (ds ++ 46 :: fs, r2.dropWhile isDigitB)
    | _ => some (ds, s2)

/-- Matcher for `-?[\d,]+(\.[\d]+)?` (the `amount` group shared by the
T, U and Split patterns).  Byte 45 is `-`. -/
def matchNum : List Nat → Option (List Nat × List Nat)
  | 45 :: s1 => (matchNumBody s1).map (fun p => (45 :: p.1, p.2))
  | s => matchNumBody s

/-- Result of one successful regex match: `name` is `m.lastgroup` (for all
twelve patterns the outermost named group, since its closing mark executes
last), `dict` is `m.groupdict()` with byte captures, `span` the length of
the whole match (group 0), including a carriage return taken by the
trailing `[\r]?` when that occurs. -/
structure MatchRes where
  name : String
  dict : List (String × Option (List Nat))
  span : Nat
  deriving DecidableEq, Repr

/-- Matcher for HEADER, `(?P<HEADER>!Type(?P<type>.*))[\r]?$`.
Bytes 33 84 121 112 101 spell `!Type`.  After the greedy `.*` the cursor
sits on a line feed or at the end, so the outer `[\r]?` is always empty. -/
def matchHeader : List Nat → Option MatchRes
  | 33 :: 84 :: 121 :: 112 :: 101 :: rest =>
    let t := takeLine rest
    some ⟨"HEADER", [("HEADER", some ([33, 84, 121, 112, 101] ++ t)), ("type", some t)],
          5 + t.length⟩
  | _ => none

/-- Matcher for the month part `(?P<month>[ 01]?[\d])/` of DATE.  The two
alternatives (two-byte month, one-byte month) are distinguished by the
second byte (`[\d]` versus `/`), so no further backtracking can occur. -/
def matchMonthSlash : List Nat → Option (List Nat × List Nat)
  | c0 :: c1 :: r =>
    if (c0 == 32 || c0 == 48 || c0 == 49) && isDigitB c1 then
      match r with
      | 47 :: r2 => some ([c0, c1], r2)
      | _ => if isDigitB c0 && c1 == 47 then some ([c0], r) else none
    else if isDigitB c0 && c1 == 47 then some ([c0], r) else none
  | _ => none

/-- Matcher for the day part `(?P<day>[ 0123][\d])` of DATE (exactly two
bytes, first in space/48..51). -/
def matchDay : List Nat → Option (List Nat × List Nat)
  | c0 :: c1 :: r =>
    if (c0 == 32 || (48 ≤ c0 && c0 ≤ 51)) && isDigitB c1 then some ([c0, c1], r) else none
  | _ => none

/-- Matcher for the short year `(?P<year_short>[ ]?\d[\d]?)` of DATE.
Greedy matching needs no backtracking: giving a digit back leaves that
digit in front of `[\r]?$`, which cannot match a digit. -/
def matchYearShort : List Nat → Option (List Nat × List Nat)
  | 32 :: d1 :: rest =>
    if isDigitB d1 then
      match rest with
      | d2 :: rest2 => if isDigitB d2 then some ([32, d1, d2], rest2) else some ([32, d1], rest)
      | [] => some ([32, d1], [])
    else none
  | d1 :: rest =>
    if isDigitB d1 then
      match rest with
      | d2 :: rest2 => if isDigitB d2 then some ([d1, d2], rest2) else some ([d1], rest)
      | [] => some ([d1], [])
    else none
  | [] => none

/-- Matcher for DATE:
`(?P<DATE>D(?P<month>[ 01]?[\d])/(?P<day>[ 0123][\d])((\'(?P<year_short>[ ]?\d[\d]?))|(/(?P<year_long>[\d]{4}))))[\r]?$`.
Byte 68 is `D`, 47 `/`, 39 the quote.  The two year alternatives are
distinguished by their first byte, so the alternation needs no
backtracking either.  `groupdict` lists the named groups in definition
order; the unmatched year alternative is `None`. -/
def matchDate : List Nat → Option MatchRes
  | 68 :: rest =>
    match matchMonthSlash rest with
    | none => none
    | some (month, r1) =>
      match matchDay r1 with
      | none => none
      | some (day, r2) =>
        match r2 with
        | 39 :: r3 =>
          match matchYearShort r3 with
          | none => none
          | some (ys, r4) =>
            match matchLineEnd r4 with
            | none => none
            | some extra =>
              let full := 68 :: (month ++ 47 :: (day ++ 39 :: ys))
              some ⟨"DATE",
                [("DATE", some full), ("month", some month), ("day", some day),
                 ("year_short", some ys), ("year_long", none)],
                full.length + extra⟩
        | 47 :: y1 :: y2 :: y3 :: y4 :: r4 =>
          if isDigitB y1 && isDigitB y2 && isDigitB y3 && isDigitB y4 then
            match matchLineEnd r4 with
            | none => none
            | some extra =>
              let full := 68 :: (month ++ 47 :: (day ++ 47 :: [y1, y2, y3, y4]))
              some ⟨"DATE",
                [("DATE", some full), ("month", some month), ("day", some day),
                 ("year_short", none), ("year_long", some [y1, y2, y3, y4])],
                full.length + extra⟩
          else none
        | _ => none
  | _ => none

/-- Matcher for T_AMOUNT and U_AMOUNT,
`(?P<name>marker(?P<amount>-?[\d,]+(\.[\d]+)?))[\r]?$` with marker byte
84 (`T`) or 85 (`U`). -/
def matchAmount (marker : Nat) (name : String) : List Nat → Option MatchRes
  | b :: rest =>
    if b == marker then
      match matchNum rest with
      | none => none
      | some (cap, r) =>
        match matchLineEnd r with
        | none => none
        | some extra =>
          some ⟨name, [(name, some (marker :: cap)), ("amount", some cap)],
                1 + cap.length + extra⟩
    else none
  | [] => none

/-- Matcher for CLEARED, `(?P<CLEARED>C(?P<value>[\*cXR]))[\r]?$`.
Byte 67 is `C`; the value class is 42 `*`, 99 `c`, 88 `X`, 82 `R`. -/
def matchCleared : List Nat → Option MatchRes
  | 67 :: v :: rest =>
    if v == 42 || v == 99 || v == 88 || v == 82 then
      match matchLineEnd rest with
      | none => none
      | some extra => some ⟨"CLEARED", [("CLEARED", some [67, v]), ("value", some [v])], 2 + extra⟩
    else none
  | _ => none

/-- Matcher for the five patterns of shape `(?P<name>marker(?P<value>.*))[\r]?$`
(PAYEE 80, MEMO 77, CATEGORY 76, ADDRESS 65, N_REC 78).  The greedy `.*`
takes everything up to the line feed, including a carriage return, so the
outer `[\r]?` is always empty and the match always succeeds once the
marker byte matched. -/
def matchGeneral (marker : Nat) (name : String) : List Nat → Option MatchRes
  | b :: rest =>
    if b == marker then
      let v := takeLine rest
      some ⟨name, [(name, some (marker :: v)), ("value", some v)], 1 + v.length⟩
    else none
  | [] => none

/-- Matcher for SPLIT,
`(?P<SPLIT>S(?P<category>.*)[\r]?\n(?:E(?P<memo>.*)[\r]?\n)?\$(?P<amount>-?[\d,]+(\.[\d]+)?))[\r]?$`.
Byte 83 is `S`, 69 `E`, 36 `$`.  The whole multi-line block is one match.
When the optional memo alternative starts (byte `E`) but fails to reach
the `$` line, the fallback without the group would have to match `\$`
against that same `E`, so the whole pattern fails; this is why the
translation commits to the `E` branch whenever the byte after the
category line is 69. -/
def matchSplit : List Nat → Option MatchRes
  | 83 :: rest =>
    let cat := takeLine rest
    match dropLine rest with
    | 10 :: r2 =>
      match r2 with
      | 69 :: r3 =>
        let memo := takeLine r3
        match dropLine r3 with
        | 10 :: r4 =>
          match r4 with
          | 36 :: r5 =>
            match matchNum r5 with
            | none => none
            | some (cap, r6) =>
              match matchLineEnd r6 with
              | none => none
              | some extra =>
                let full := 83 :: (cat ++ 10 :: 69 :: (memo ++ 10 :: 36 :: cap))
                some ⟨"SPLIT",
                  [("SPLIT", some full), ("category", some cat),
                   ("memo", some memo), ("amount", some cap)],
                  full.length + extra⟩
          | _ => none
        | _ => none
      | 36 :: r3 =>
        match matchNum r3 with
        | none => none
        | some (cap, r4) =>
          match matchLineEnd r4 with
          | none => none
          | some extra =>
            let full := 83 :: (cat ++ 10 :: 36 :: cap)
            some ⟨"SPLIT",
              [("SPLIT", some full), ("category", some cat),
               ("memo", none), ("amount", some cap)],
              full.length + extra⟩
      | _ => none
    | _ => none
  | _ => none

/-- Matcher for END, `(?P<END>\^)[\r]?$` (byte 94 is the caret). -/
def matchEnd : List Nat → Option MatchRes
  | 94 :: rest =>
    match matchLineEnd rest with
    | none => none
    | some extra => some ⟨"END", [("END", some [94])], 1 + extra⟩
  | _ => none

/-- Compiled record regexes in the order of `_qif_record_regexes`. -/
def qifMatchers : List (List Nat → Option MatchRes) :=
  [matchHeader, matchDate, matchAmount 84 "T_AMOUNT", matchAmount 85 "U_AMOUNT",
   matchCleared, matchGeneral 80 "PAYEE", matchGeneral 77 "MEMO",
   matchGeneral 76 "CATEGORY", matchGeneral 65 "ADDRESS", matchGeneral 78 "N_REC",
   matchSplit, matchEnd]

/-- The inner loop of `_recordize`: try the compiled regexes in order and
keep the first match. -/
def firstMatch : List (List Nat → Option MatchRes) → List Nat → Option MatchRes
  | [], _ => none
  | m :: ms, s =>
    match m s with
    | some r => some r
    | none => firstMatch ms s

/-- Recognition at the front of a byte suffix. -/
def recognizeSuffix (s : List Nat) : Option MatchRes := firstMatch qifMatchers s

/-- Recognition anchored at cursor `position`, as `regex.match(text, position)`
does: patterns are applied exactly at the cursor (the suffix from
`position`), never searched ahead of it; `re` clamps a cursor beyond the
end of the buffer, which `List.drop` does as well. -/
def recognizeAt (text : List Nat) (position : Nat) : Option MatchRes :=
  recognizeSuffix (text.drop position)

/-- Continuation byte test for UTF-8 (10xxxxxx). -/
def contB (b : Nat) : Bool := 128 ≤ b && b ≤ 191

/-- Strict UTF-8 decoding, as `bytes.decode('utf-8')`: rejects stray
continuation bytes, overlong forms, surrogates and values above U+10FFFF;
`none` models the `UnicodeDecodeError` the Python call raises. -/
def utf8Decode : List Nat → Option (List Char)
  | [] => some []
  | b1 :: rest =>
    if b1 < 128 then
      (utf8Decode rest).map (fun cs => Char.ofNat b1 :: cs)
    else if b1 < 194 then none
    else if b1 < 224 then
      match rest with
      | b2 :: rest2 =>
        if contB b2 then
          (utf8Decode rest2).map (fun cs => Char.ofNat ((b1 - 192) * 64 + (b2 - 128)) :: cs)
        else none
      | [] => none
    else if b1 < 240 then
      match rest with
      | b2 :: b3 :: rest2 =>
        if (if b1 == 224 then 160 ≤ b2 && b2 ≤ 191
            else if b1 == 237 then 128 ≤ b2 && b2 ≤ 159
            else contB b2) && contB b3 then
          (utf8Decode rest2).map
            (fun cs => Char.ofNat ((b1 - 224) * 4096 + (b2 - 128) * 64 + (b3 - 128)) :: cs)
        else none
      | _ => none
    else if b1 < 245 then
      match rest with
      | b2 :: b3 :: b4 :: rest2 =>
        if (if b1 == 240 then 144 ≤ b2 && b2 ≤ 191
            else if b1 == 244 then 128 ≤ b2 && b2 ≤ 143
            else contB b2) && contB b3 && contB b4 then
          (utf8Decode rest2).map
            (fun cs => Char.ofNat
              ((b1 - 240) * 262144 + (b2 - 128) * 4096 + (b3 - 128) * 64 + (b4 - 128)) :: cs)
        else none
      | _ => none
    else none

/-- UTF-8 encoding of one scalar value (Lean `Char` carries no surrogates,
matching `str`, whose `encode('utf-8')` cannot fail on scalar values). -/
def utf8EncodeChar (c : Char) : List Nat :=
  let n := c.toNat
  if n < 128 then [n]
  else if n < 2048 then [192 + n / 64, 128 + n % 64]
  else if n < 65536 then [224 + n / 4096, 128 + (n / 64) % 64, 128 + n % 64]
  else [240 + n / 262144, 128 + (n / 4096) % 64, 128 + (n / 64) % 64, 128 + n % 64]

/-- UTF-8 encoding of a string, as `text.encode('utf-8')`. -/
def utf8Encode (s : List Char) : List Nat :=
  s.foldr (fun c acc => utf8EncodeChar c ++ acc) []

/-- Byte view of a Lean string literal (used for concrete inputs). -/
def bytesOf (s : String) : List Nat := utf8Encode s.data

/-- Values that can sit in a cast record's `value_dict`: Python strings,
floats and `datetime.date` objects.  A float parsed from a decimal amount
literal is modelled by its exact rational value (the parser performs no
arithmetic on amounts, so the binary rounding of the Python `float` type
is irrelevant to every property stated here). -/
inductive PyVal where
  | vstr (s : List Char)
  | vfloat (q : ℚ)
  | vdate (year month day : Nat)
  deriving DecidableEq, Repr

/-- The namedtuple `QIFRecord(type, value_dict)`; dict values may be `None`
(unmatched optional groups), and dict insertion order is kept. -/
structure QIFRecord where
  type : String
  value_dict : List (String × Option PyVal)
  deriving DecidableEq, Repr

/-- Dictionary lookup, `d[k]` joined with the `k in d` test: `none` when
the key is absent (a `KeyError` site in Python), `some v` otherwise. -/
def dlookup (d : List (String × Option PyVal)) (k : String) : Option (Option PyVal) :=
  (d.find? (fun kv => kv.1 == k)).map (·.2)

/-- Decoding of one optional byte capture by `decode_val`: `None` passes
through, bytes are UTF-8 decoded. -/
def decodeVal : Option (List Nat) → Option (Option PyVal)
  | none => some none
  | some bs => (utf8Decode bs).map (fun s => some (.vstr s))

/-- Decoding of a whole match into the raw `QIFRecord` yielded by
`_recordize` (every groupdict value run through `decode_val`). -/
def decodeRecord (m : MatchRes) : Option QIFRecord :=
  (m.dict.mapM (fun kv => (decodeVal kv.2).map (fun v => (kv.1, v)))).map
    (fun d => ⟨m.name, d⟩)

/-- Terminal state of the `_recordize` loop: normal exhaustion, the
`SyntaxError` raised when no pattern matches before the end of input
(carrying the unmatched remainder `text[position:]`), or a propagated
`UnicodeDecodeError` from `decode_val`. -/
inductive ScanOutcome where
  | done
  | lexErr (rest : List Nat)
  | decodeErr
  deriving DecidableEq, Repr

/-- The `_recordize` loop, driven by explicit fuel so that every run is a
kernel-computable function.  One unit of fuel is spent per record; each
match consumes at least one byte and the cursor then skips one more, so
`length + 1` fuel always suffices (`scanFuel_congr` below).  On a match at
cursor `p` the next cursor is `p + span + 1` (`m.span()[1] + 1`), i.e. the
suffix loses `span + 1` bytes; at the end, `position < len(text)` decides
between the `SyntaxError` and normal exhaustion, which on the suffix view
is exactly whether the suffix is empty. -/
def scanFuel : Nat → List Nat → List QIFRecord × ScanOutcome
  | _, [] => ([], .done)
  | 0, _ :: _ => ([], .done)
  | fuel + 1, b :: rest =>
    match recognizeSuffix (b :: rest) with
    | some m =>
      match decodeRecord m with
      | some q =>
        let r := scanFuel fuel ((b :: rest).drop (m.span + 1))
        (q :: r.1, r.2)
      | none => ([], .decodeErr)
    | none => ([], .lexErr (b :: rest))

/-- Record stream of `_recordize` on a full byte buffer, together with the
way the iterator ends. -/
def recordize (text : List Nat) : List QIFRecord × ScanOutcome :=
  scanFuel (text.length + 1) text

/-- Transaction type constants. -/
def TTYPE_NORMAL : String := "NORMAL"

/-- Transaction type constant for split transactions. -/
def TTYPE_SPLIT : String := "SPLIT"

/-- Base-10 value of a digit string. -/
def digitsToNat (ds : List Char) : Nat :=
  ds.foldl (fun a c => a * 10 + (c.toNat - 48)) 0

/-- Python `int()` restricted to the capture domain of the date pattern
(strings of spaces and digits): surrounding whitespace is stripped, the
remainder must be a nonempty digit string. -/
def pyInt (s : List Char) : Option Nat :=
  let t := ((s.dropWhile (· == ' ')).reverse.dropWhile (· == ' ')).reverse
  if t.isEmpty then none
  else if t.all (·.isDigit) then some (digitsToNat t) else none

/-- Unsigned part of the `float()` grammar on the reachable domain:
digits, then optionally a point and more digits, nothing else; at least
one digit overall.  The value carries the sign passed down. -/
def pyFloatUnsigned (sgn : Int) (s1 : List Char) : Option ℚ :=
  let ds := s1.takeWhile (·.isDigit)
  let s2 := s1.dropWhile (·.isDigit)
  match s2 with
  | [] => if ds.isEmpty then none else some (Rat.divInt (sgn * digitsToNat ds) 1)
  | '.' :: r =>
    let fs := r.takeWhile (·.isDigit)
    let s3 := r.dropWhile (·.isDigit)
    if s3.isEmpty && !(ds.isEmpty && fs.isEmpty) then
      some (Rat.divInt (sgn * (digitsToNat ds * 10 ^ fs.length + digitsToNat fs))
        (10 ^ fs.length))
    else none
  | _ => none

/-- Python `float()` restricted to the domain reachable from the amount
patterns after comma stripping (optional sign, digits, optional point and
digits): succeeds exactly when at least one digit is present and the whole
string is consumed, with the exact decimal value.  `none` models the
`ValueError` float raises on an empty or malformed string. -/
def pyFloat : List Char → Option ℚ
  | '-' :: r => pyFloatUnsigned (-1) r
  | '+' :: r => pyFloatUnsigned 1 r
  | s => pyFloatUnsigned 1 s

/-- Gregorian leap year test used by `datetime.date`. -/
def isLeapYear (y : Nat) : Bool := y % 4 == 0 && (y % 100 != 0 || y % 400 == 0)

/-- Days in a month per `datetime.date`. -/
def daysInMonth (y m : Nat) : Nat :=
  if m == 2 then (if isLeapYear y then 29 else 28)
  else if m == 4 || m == 6 || m == 9 || m == 11 then 30
  else 31

/-- Validity domain of the `datetime.date(year, month, day)` constructor;
outside it the constructor raises `ValueError`. -/
def validDate (y m d : Nat) : Bool :=
  1 ≤ y && y ≤ 9999 && 1 ≤ m && m ≤ 12 && 1 ≤ d && d ≤ daysInMonth y m

/-- String extraction from a dict slot (captured group values are always
strings when present, so a missing key, a `None` value or a non-string
value all make the following conversion raise). -/
def getStr : Option (Option PyVal) → Option (List Char)
  | some (some (.vstr s)) => some s
  | _ => none

/-- The `_cast_date` caster: month and day via `int()`, the year resolved
from `year_short` by the 50-year pivot when that group matched, otherwise
from `year_long`; the result is a fresh record holding one `date` value.
`none` models any raised `ValueError`/`KeyError` (strict casting, never a
default). -/
def castDate (r : QIFRecord) : Option QIFRecord :=
  match getStr (dlookup r.value_dict "month") with
  | none => none
  | some ms =>
    match pyInt ms with
    | none => none
    | some month =>
      match getStr (dlookup r.value_dict "day") with
      | none => none
      | some dstr =>
        match pyInt dstr with
        | none => none
        | some day =>
          let yearOpt : Option Nat :=
            match dlookup r.value_dict "year_short" with
            | some (some v) =>
              match v with
              | .vstr ys => (pyInt ys).map (fun y => if y ≤ 50 then y + 2000 else y + 1900)
              | _ => none
            | _ =>
              match getStr (dlookup r.value_dict "year_long") with
              | none => none
              | some yl => pyInt yl
          match yearOpt with
          | none => none
          | some year =>
            if validDate year month day then
              some ⟨r.type, [("date", some (.vdate year month day))]⟩
            else none

/-- Comma removal, `d['amount'].replace(",", "")`. -/
def stripCommas (s : List Char) : List Char := s.filter (· != ',')

/-- The `_cast_amount` caster: strip thousands separators, parse as a
signed decimal. -/
def castAmount (r : QIFRecord) : Option QIFRecord :=
  match getStr (dlookup r.value_dict "amount") with
  | none => none
  | some a =>
    match pyFloat (stripCommas a) with
    | none => none
    | some q => some ⟨r.type, [("amount", some (.vfloat q))]⟩

/-- The `_cast_split` caster: category copied verbatim, amount cast like
`_cast_amount`, memo copied only when the raw capture is present. -/
def castSplit (r : QIFRecord) : Option QIFRecord :=
  match dlookup r.value_dict "category" with
  | none => none
  | some catv =>
    match getStr (dlookup r.value_dict "amount") with
    | none => none
    | some a =>
      match pyFloat (stripCommas a) with
      | none => none
      | some q =>
        match dlookup r.value_dict "memo" with
        | some (some mv) =>
          some ⟨r.type, [("category", catv), ("amount", some (.vfloat q)), ("memo", some mv)]⟩
        | _ => some ⟨r.type, [("category", catv), ("amount", some (.vfloat q))]⟩

/-- The `_cast_general` caster shared by CLEARED, PAYEE, MEMO, CATEGORY,
ADDRESS and N_REC: keep only the `value` slot. -/
def castGeneral (r : QIFRecord) : Option QIFRecord :=
  match dlookup r.value_dict "value" with
  | none => none
  | some v => some ⟨r.type, [("value", v)]⟩

/-- Dispatch through `_record_casts` plus the `r.type in _record_casts`
test of `parse`: the ten castable kinds are converted, anything else
(HEADER) is appended raw. -/
def castRecord (r : QIFRecord) : Option QIFRecord :=
  if r.type == "DATE" then castDate r
  else if r.type == "T_AMOUNT" || r.type == "U_AMOUNT" then castAmount r
  else if r.type == "CLEARED" || r.type == "PAYEE" || r.type == "MEMO" ||
          r.type == "CATEGORY" || r.type == "ADDRESS" || r.type == "N_REC" then castGeneral r
  else if r.type == "SPLIT" then castSplit r
  else some r

/-- The namedtuple `Transaction(type, records)`.  `copy.deepcopy` at the
emission point is the identity on this immutable model. -/
structure QIFTransaction where
  type : String
  records : List QIFRecord
  deriving DecidableEq, Repr

/-- The transaction-builder loop of `parse` over an already-produced
record stream: END emits the buffer as a transaction and resets state,
SPLIT flips the pending transaction type, every non-END record is cast and
appended.  The boolean is true when some cast raised, in which case the
transactions yielded before that point are kept and nothing further is
produced (the exception propagates out of the generator). -/
def processRecords : String → List QIFRecord → List QIFRecord → List QIFTransaction × Bool
  | _, _, [] => ([], false)
  | ttype, buf, r :: rs =>
    if r.type == "END" then
      let rest := processRecords TTYPE_NORMAL [] rs
      (⟨ttype, buf⟩ :: rest.1, rest.2)
    else
      let ttype1 := if r.type == "SPLIT" then TTYPE_SPLIT else ttype
      match castRecord r with
      | some r1 => processRecords ttype1 (buf ++ [r1]) rs
      | none => ([], true)

/-- Input accepted by `QIFParser.parse`: either `str` or a byte buffer. -/
inductive QIFInput where
  | str (s : List Char)
  | bytes (b : List Nat)
  deriving DecidableEq, Repr

/-- The normalization at the top of `parse`: string input is UTF-8 encoded,
bytes pass through ("internally, we parse by bytes"). -/
def normalizeInput : QIFInput → List Nat
  | .str s => utf8Encode s
  | .bytes b => b

/-- Way a run of the `parse` generator ends: normal exhaustion, the
`SyntaxError` from `_recordize` (offset plus remaining text), a
`ValueError` from a caster, or a `UnicodeDecodeError` from `decode_val`. -/
inductive ParseOutcome where
  | ok
  | lexical (pos : Nat) (snippet : List Nat)
  | castFail
  | decodeFail
  deriving DecidableEq, Repr

/-- Everything an exhaustive consumer of the `parse` generator observes:
the transactions yielded, then how the iteration ended. -/
structure ParseResult where
  transactions : List QIFTransaction
  outcome : ParseOutcome
  deriving DecidableEq, Repr

/-- The whole `QIFParser.parse` pipeline.  A cast failure aborts the
consumption of the record stream before the scan's own terminal state is
reached, so it takes precedence over a lexical or decode error that the
scan would hit later; the transactions kept are exactly those yielded
before the failing point, which the laziness of the generators guarantees
in the source. -/
def parse (inp : QIFInput) : ParseResult :=
  let text := normalizeInput inp
  let scanned := recordize text
  let built := processRecords TTYPE_NORMAL [] scanned.1
  { transactions := built.1,
    outcome :=
      if built.2 then .castFail
      else
        match scanned.2 with
        | .done => .ok
        | .lexErr rest => .lexical (text.length - rest.length) rest
        | .decodeErr => .decodeFail }

/-- Byte rendering of an optional fraction part (point 46 plus digits). -/
def fracBytes : Option (List Nat) → List Nat
  | none => []
  | some fs => 46 :: fs

/-- Byte sequence of a textual amount capture `-?[\d,]+(\.[\d]+)?`:
optional minus 45, digits and commas, optional point 46 plus digits. -/
def amtBytes (neg : Bool) (ds : List Nat) (frac : Option (List Nat)) : List Nat :=
  (cond neg [45] []) ++ ds ++ fracBytes frac

/-- Character form of an amount capture, for statements about the casters
(which run after UTF-8 decoding). -/
def amtChars (neg : Bool) (ds : List Char) (frac : Option (List Char)) : List Char :=
  (cond neg ['-'] []) ++ ds ++ (match frac with | none => [] | some fs => '.' :: fs)

/-- Exact value of a signed decimal with integer digits `ip` and fraction
digits `fp`. -/
def decValue (neg : Bool) (ip fp : List Char) : ℚ :=
  Rat.divInt ((cond neg (-1 : Int) 1) * (digitsToNat ip * 10 ^ fp.length + digitsToNat fp))
    (10 ^ fp.length)

/-- Character rendering of an optional fraction part (point plus digits). -/
def fracChars : Option (List Char) → List Char
  | none => []
  | some fs => '.' :: fs

/-- Digits of an optional fraction part. -/
def fracDigits (frac : Option (List Char)) : List Char := frac.getD []

section Lemmas

/-- Generic fact: dropping as many elements as `takeWhile` keeps leaves
exactly `dropWhile`. -/
theorem drop_takeWhile_length (p : Nat → Bool) (s : List Nat) :
    s.drop (s.takeWhile p).length = s.dropWhile p := by
  calc s.drop (s.takeWhile p).length
      = (s.takeWhile p ++ s.dropWhile p).drop (s.takeWhile p).length := by
        rw [List.takeWhile_append_dropWhile]
    _ = s.dropWhile p := List.drop_left _ _

/-- Splitting a drop of a sum into two drops. -/
theorem drop_add (a b : Nat) (l : List Nat) : l.drop (a + b) = (l.drop a).drop b := by
  rw [List.drop_drop, Nat.add_comm]

/-- Remainder after a `.*` capture: nothing, or a line feed in front. -/
theorem dropLine_head (s : List Nat) :
    dropLine s = [] ∨ (dropLine s).head? = some 10 := by
  induction s with
  | nil => left; rfl
  | cons a t ih =>
    by_cases h : a = 10
    · right; simp [dropLine, List.dropWhile_cons, h]
    · simpa [dropLine, List.dropWhile_cons, h] using ih

/-- Bytes left after the span of a `.*` capture. -/
theorem drop_takeLine (s : List Nat) : s.drop (takeLine s).length = dropLine s :=
  drop_takeWhile_length _ s

/-- Remainder after the `[\r]?$` matcher: end of input or a line feed. -/
theorem matchLineEnd_after (r : List Nat) (e : Nat) (h : matchLineEnd r = some e) :
    r.drop e = [] ∨ (r.drop e).head? = some 10 := by
  match r with
  | [] =>
    simp only [matchLineEnd, Option.some.injEq] at h
    subst h; left; rfl
  | b :: rest =>
    simp only [matchLineEnd] at h
    by_cases hb : b = 10
    · simp [hb] at h; subst h; right; simp [hb]
    · simp [hb] at h
      by_cases hc : b = 13
      · simp [hc] at h
        match rest with
        | [] => simp at h; subst h; left; rfl
        | c :: rest2 =>
          simp at h
          by_cases hc2 : c = 10
          · simp [hc2] at h; subst h; right; simp [hc2]
          · simp [hc2] at h
      · simp [hc] at h

/-- takeWhile and dropWhile of an all-true block followed by a stopper. -/
theorem takeWhile_all_append {α : Type} (p : α → Bool) (l t : List α)
    (hl : ∀ b ∈ l, p b = true)
    (ht : t = [] ∨ ∃ a t2, t = a :: t2 ∧ p a = false) :
    (l ++ t).takeWhile p = l ∧ (l ++ t).dropWhile p = t := by
  induction l with
  | nil =>
    rcases ht with rfl | ⟨a, t2, rfl, ha⟩
    · exact ⟨rfl, rfl⟩
    · simp [List.takeWhile_cons, List.dropWhile_cons, ha]
  | cons b l2 ih =>
    have hb : p b = true := hl b (by simp)
    have ih2 := ih (fun x hx => hl x (by simp [hx]))
    simp [List.takeWhile_cons, List.dropWhile_cons, hb, ih2.1, ih2.2]

/-- Nothing matches at the end of the buffer: every pattern begins with a
mandatory marker byte. -/
theorem recognizeSuffix_nil : recognizeSuffix [] = none := rfl

/-- Fuel above the suffix length never influences the scan: each match
consumes at least the marker byte and the cursor then skips one more. -/
theorem scanFuel_congr :
    ∀ f1 : Nat, ∀ s : List Nat, ∀ f2 : Nat, s.length < f1 → s.length < f2 →
      scanFuel f1 s = scanFuel f2 s := by
  intro f1
  induction f1 with
  | zero => intro s f2 h1; omega
  | succ f1p ih =>
    intro s f2 h1 h2
    match s with
    | [] =>
      match f2 with
      | 0 => simp at h2
      | f2p + 1 => rfl
    | b :: rest =>
      match f2 with
      | 0 => simp at h2
      | f2p + 1 =>
        simp only [scanFuel]
        match hrec : recognizeSuffix (b :: rest) with
        | none => simp [hrec]
        | some m =>
          match hdec : decodeRecord m with
          | none => simp [hrec, hdec]
          | some q =>
            have hlen : ((b :: rest).drop (m.span + 1)).length < f1p := by
              simp only [List.length_drop, List.length_cons] at *
              omega
            have hlen2 : ((b :: rest).drop (m.span + 1)).length < f2p := by
              simp only [List.length_drop, List.length_cons] at *
              omega
            have heq := ih ((b :: rest).drop (m.span + 1)) f2p hlen hlen2
            simp only [List.drop_succ_cons] at heq
            simp [hrec, hdec, heq]

/-- Unfolding of one `_recordize` step on a successful match: the record
is yielded and the cursor moves to the end of the span plus one. -/
theorem recordize_cons (s : List Nat) (m : MatchRes) (q : QIFRecord)
    (h : recognizeSuffix s = some m) (hq : decodeRecord m = some q) :
    recordize s =
      (q :: (recordize (s.drop (m.span + 1))).1, (recordize (s.drop (m.span + 1))).2) := by
  match s with
  | [] => rw [recognizeSuffix_nil] at h; exact absurd h (by simp)
  | b :: rest =>
    show scanFuel (rest.length + 1 + 1) (b :: rest) = _
    simp only [scanFuel, h, hq]
    have hcongr := scanFuel_congr (rest.length + 1) ((b :: rest).drop (m.span + 1))
      (((b :: rest).drop (m.span + 1)).length + 1)
      (by simp only [List.length_drop, List.length_cons]; omega)
      (by omega)
    rw [show scanFuel (rest.length + 1) ((b :: rest).drop (m.span + 1))
          = recordize ((b :: rest).drop (m.span + 1)) from hcongr]

/-- Unfolding of the terminal `_recordize` step when no pattern matches
before the end of the input: the `SyntaxError` state carries the whole
unmatched remainder. -/
theorem recordize_lexErr (s : List Nat) (h : recognizeSuffix s = none) (hne : s ≠ []) :
    recordize s = ([], .lexErr s) := by
  match s with
  | [] => exact absurd rfl hne
  | b :: rest =>
    show scanFuel (rest.length + 1 + 1) (b :: rest) = _
    simp only [scanFuel, h]

/-- The remainder reported by a lexical error is a suffix of the scanned
buffer (it is `text[position:]` for the cursor reached). -/
theorem scanFuel_lexErr_suffix :
    ∀ f : Nat, ∀ s recs rem, scanFuel f s = (recs, .lexErr rem) → rem <:+ s ∧ rem ≠ [] := by
  intro f
  induction f with
  | zero =>
    intro s recs rem h
    match s with
    | [] => simp [scanFuel] at h
    | b :: rest => simp [scanFuel] at h
  | succ fp ih =>
    intro s recs rem h
    match s with
    | [] => simp [scanFuel] at h
    | b :: rest =>
      cases hrec : recognizeSuffix (b :: rest) with
      | none =>
        simp only [scanFuel, hrec] at h
        have : b :: rest = rem := by
          have := congrArg Prod.snd h
          simpa using this
        exact this ▸ ⟨List.suffix_refl _, by simp⟩
      | some m =>
        cases hdec : decodeRecord m with
        | none => simp [scanFuel, hrec, hdec] at h
        | some q =>
          simp only [scanFuel, hrec, hdec] at h
          have hsnd := congrArg Prod.snd h
          simp only at hsnd
          have h2 : scanFuel fp (rest.drop m.span)
              = ((scanFuel fp (rest.drop m.span)).1, ScanOutcome.lexErr rem) :=
            Prod.ext rfl hsnd
          have hih := ih _ _ _ h2
          have hsfx : rest.drop m.span <:+ b :: rest :=
            (List.drop_suffix _ _).trans (List.suffix_cons _ _)
          exact ⟨hih.1.trans hsfx, hih.2⟩

/-- Characterization of the first-match loop: some pattern in the list
matched, and all patterns before it failed. -/
theorem firstMatch_order (ms : List (List Nat → Option MatchRes)) (s : List Nat)
    (m : MatchRes) (h : firstMatch ms s = some m) :
    ∃ i : Fin ms.length, ms.get i s = some m ∧
      ∀ j : Fin ms.length, j.val < i.val → ms.get j s = none := by
  induction ms with
  | nil => simp [firstMatch] at h
  | cons f fs ih =>
    simp only [firstMatch] at h
    match hf : f s with
    | some r =>
      rw [hf] at h
      refine ⟨⟨0, by simp⟩, ?_, ?_⟩
      · simpa [hf] using h
      · intro j hj; simp at hj
    | none =>
      rw [hf] at h
      obtain ⟨i, hi, hjs⟩ := ih h
      refine ⟨⟨i.val + 1, by simp only [List.length_cons]; exact Nat.succ_lt_succ i.isLt⟩,
        by simpa using hi, ?_⟩
      intro j hj
      match j with
      | ⟨0, _⟩ => simpa using hf
      | ⟨jv + 1, hjv⟩ =>
        have : jv < i.val := by simpa using hj
        simpa using hjs ⟨jv, by simp at hjv; omega⟩ this

/-- A successful recognition comes from a member of the matcher list. -/
theorem firstMatch_mem (ms : List (List Nat → Option MatchRes)) (s : List Nat)
    (m : MatchRes) (h : firstMatch ms s = some m) :
    ∃ f ∈ ms, f s = some m := by
  obtain ⟨i, hi, _⟩ := firstMatch_order ms s m h
  exact ⟨ms.get i, by have := List.get_mem ms i.val i.isLt; exact this, hi⟩

/-- Dropping one byte from a cons. -/
theorem drop_one_cons (b : Nat) (l : List Nat) : (b :: l).drop 1 = l := rfl

/-- The amount body consumes exactly its capture. -/
theorem matchNumBody_drop (s cap r : List Nat) (h : matchNumBody s = some (cap, r)) :
    s.drop cap.length = r := by
  simp only [matchNumBody] at h
  split at h
  · simp at h
  · split at h
    case _ r2 heq =>
      split at h
      · obtain ⟨rfl, rfl⟩ := Prod.mk.injEq .. ▸ Option.some.inj h
        exact drop_takeWhile_length _ _
      · obtain ⟨rfl, rfl⟩ := Prod.mk.injEq .. ▸ Option.some.inj h
        have hlen : (s.takeWhile isNumChar ++ 46 :: r2.takeWhile isDigitB).length
            = (s.takeWhile isNumChar).length + (1 + (r2.takeWhile isDigitB).length) := by
          simp [List.length_append]
          omega
        rw [hlen, drop_add, drop_takeWhile_length, heq, drop_add, drop_one_cons,
          drop_takeWhile_length]
    case _ =>
      obtain ⟨rfl, rfl⟩ := Prod.mk.injEq .. ▸ Option.some.inj h
      exact drop_takeWhile_length _ _

/-- The signed amount matcher consumes exactly its capture. -/
theorem matchNum_drop (s cap r : List Nat) (h : matchNum s = some (cap, r)) :
    s.drop cap.length = r := by
  unfold matchNum at h
  split at h
  case _ s1 =>
    cases hb : matchNumBody s1 with
    | none => rw [hb] at h; simp at h
    | some p =>
      rw [hb] at h
      obtain ⟨c1, r1⟩ := p
      simp only [Option.map] at h
      obtain ⟨rfl, rfl⟩ := Prod.mk.injEq .. ▸ Option.some.inj h
      have := matchNumBody_drop s1 c1 r1 hb
      simpa [List.length_cons, List.drop_succ_cons] using this
  case _ =>
    exact matchNumBody_drop _ _ _ h

/-- After an END span the input continues with a line feed or ends. -/
theorem matchEnd_after (s : List Nat) (m : MatchRes) (h : matchEnd s = some m) :
    s.drop m.span = [] ∨ (s.drop m.span).head? = some 10 := by
  unfold matchEnd at h
  split at h
  case _ rest =>
    cases hle : matchLineEnd rest with
    | none => rw [hle] at h; simp at h
    | some extra =>
      rw [hle] at h
      obtain rfl := (Option.some.inj h).symm
      show (94 :: rest).drop (1 + extra) = [] ∨ ((94 :: rest).drop (1 + extra)).head? = some 10
      rw [drop_add, drop_one_cons]
      exact matchLineEnd_after rest extra hle
  case _ => simp at h

/-- After a CLEARED span the input continues with a line feed or ends. -/
theorem matchCleared_after (s : List Nat) (m : MatchRes) (h : matchCleared s = some m) :
    s.drop m.span = [] ∨ (s.drop m.span).head? = some 10 := by
  unfold matchCleared at h
  split at h
  case _ v rest =>
    split at h
    · cases hle : matchLineEnd rest with
      | none => rw [hle] at h; simp at h
      | some extra =>
        rw [hle] at h
        obtain rfl := (Option.some.inj h).symm
        show (67 :: v :: rest).drop (2 + extra) = [] ∨
          ((67 :: v :: rest).drop (2 + extra)).head? = some 10
        rw [drop_add]
        exact matchLineEnd_after rest extra hle
    · simp at h
  case _ => simp at h

/-- After a PAYEE, MEMO, CATEGORY, ADDRESS or N_REC span the input
continues with a line feed or ends (the greedy `.*` stops there). -/
theorem matchGeneral_after (marker : Nat) (name : String) (s : List Nat) (m : MatchRes)
    (h : matchGeneral marker name s = some m) :
    s.drop m.span = [] ∨ (s.drop m.span).head? = some 10 := by
  unfold matchGeneral at h
  split at h
  case _ b rest =>
    split at h
    · obtain rfl := (Option.some.inj h).symm
      show (b :: rest).drop (1 + (takeLine rest).length) = [] ∨
        ((b :: rest).drop (1 + (takeLine rest).length)).head? = some 10
      rw [drop_add, drop_one_cons, drop_takeLine]
      exact dropLine_head rest
    · simp at h
  case _ => simp at h

/-- After a HEADER span the input continues with a line feed or ends. -/
theorem matchHeader_after (s : List Nat) (m : MatchRes) (h : matchHeader s = some m) :
    s.drop m.span = [] ∨ (s.drop m.span).head? = some 10 := by
  unfold matchHeader at h
  split at h
  case _ rest =>
    obtain rfl := (Option.some.inj h).symm
    show (33 :: 84 :: 121 :: 112 :: 101 :: rest).drop (5 + (takeLine rest).length) = [] ∨
      ((33 :: 84 :: 121 :: 112 :: 101 :: rest).drop (5 + (takeLine rest).length)).head?
        = some 10
    rw [drop_add]
    show rest.drop (takeLine rest).length = [] ∨
      (rest.drop (takeLine rest).length).head? = some 10
    rw [drop_takeLine]
    exact dropLine_head rest
  case _ => simp at h

/-- After a T_AMOUNT or U_AMOUNT span the input continues with a line
feed or ends. -/
theorem matchAmount_after (marker : Nat) (name : String) (s : List Nat) (m : MatchRes)
    (h : matchAmount marker name s = some m) :
    s.drop m.span = [] ∨ (s.drop m.span).head? = some 10 := by
  unfold matchAmount at h
  split at h
  case _ b rest =>
    split at h
    · split at h
      · simp at h
      case _ cap r hnum =>
        cases hle : matchLineEnd r with
        | none => rw [hle] at h; simp at h
        | some extra =>
          rw [hle] at h
          obtain rfl := (Option.some.inj h).symm
          show (b :: rest).drop (1 + cap.length + extra) = [] ∨
            ((b :: rest).drop (1 + cap.length + extra)).head? = some 10
          rw [drop_add, drop_add, drop_one_cons, matchNum_drop rest cap r hnum]
          exact matchLineEnd_after r extra hle
    · simp at h
  case _ => simp at h

/-- The month matcher consumes its capture plus the slash. -/
theorem matchMonthSlash_drop (s mo r : List Nat) (h : matchMonthSlash s = some (mo, r)) :
    s.drop (mo.length + 1) = r := by
  unfold matchMonthSlash at h
  split at h
  case _ c0 c1 r0 =>
    split at h
    · split at h
      case _ r2 =>
        obtain ⟨rfl, rfl⟩ := Prod.mk.injEq .. ▸ Option.some.inj h
        rfl
      case _ =>
        split at h
        · obtain ⟨rfl, rfl⟩ := Prod.mk.injEq .. ▸ Option.some.inj h
          rfl
        · simp at h
    · split at h
      · obtain ⟨rfl, rfl⟩ := Prod.mk.injEq .. ▸ Option.some.inj h
        rfl
      · simp at h
  case _ => simp at h

/-- The day matcher consumes exactly its two-byte capture. -/
theorem matchDay_drop (s d r : List Nat) (h : matchDay s = some (d, r)) :
    s.drop d.length = r := by
  unfold matchDay at h
  split at h
  case _ c0 c1 r0 =>
    split at h
    · obtain ⟨rfl, rfl⟩ := Prod.mk.injEq .. ▸ Option.some.inj h
      rfl
    · simp at h
  case _ => simp at h

/-- The short-year matcher consumes exactly its capture. -/
theorem matchYearShort_drop (s ys r : List Nat) (h : matchYearShort s = some (ys, r)) :
    s.drop ys.length = r := by
  unfold matchYearShort at h
  split at h
  case _ d1 rest =>
    split at h
    · split at h
      case _ d2 rest2 =>
        split at h
        · obtain ⟨rfl, rfl⟩ := Prod.mk.injEq .. ▸ Option.some.inj h
          rfl
        · obtain ⟨rfl, rfl⟩ := Prod.mk.injEq .. ▸ Option.some.inj h
          rfl
      case _ =>
        obtain ⟨rfl, rfl⟩ := Prod.mk.injEq .. ▸ Option.some.inj h
        rfl
    · simp at h
  case _ d1 rest =>
    split at h
    · split at h
      case _ d2 rest2 =>
        split at h
        · obtain ⟨rfl, rfl⟩ := Prod.mk.injEq .. ▸ Option.some.inj h
          rfl
        · obtain ⟨rfl, rfl⟩ := Prod.mk.injEq .. ▸ Option.some.inj h
          rfl
      case _ =>
        obtain ⟨rfl, rfl⟩ := Prod.mk.injEq .. ▸ Option.some.inj h
        rfl
    · simp at h
  case _ => simp at h

/-- After a DATE span the input continues with a line feed or ends. -/
theorem matchDate_after (s : List Nat) (m : MatchRes) (h : matchDate s = some m) :
    s.drop m.span = [] ∨ (s.drop m.span).head? = some 10 := by
  unfold matchDate at h
  split at h
  case _ rest =>
    split at h
    · simp at h
    case _ month r1 hmo =>
      split at h
      · simp at h
      case _ day r2 hday =>
        split at h
        case _ r3 =>
          -- short-year branch
          split at h
          · simp at h
          case _ ys r4 hys =>
            cases hle : matchLineEnd r4 with
            | none => rw [hle] at h; simp at h
            | some extra =>
              rw [hle] at h
              obtain rfl := (Option.some.inj h).symm
              show (68 :: rest).drop
                  ((68 :: (month ++ 47 :: (day ++ 39 :: ys))).length + extra) = [] ∨
                ((68 :: rest).drop
                  ((68 :: (month ++ 47 :: (day ++ 39 :: ys))).length + extra)).head? = some 10
              have harith : (68 :: (month ++ 47 :: (day ++ 39 :: ys))).length + extra
                  = 1 + ((month.length + 1) + (day.length + (1 + (ys.length + extra)))) := by
                simp [List.length_append]
                omega
              rw [harith, drop_add, drop_one_cons, drop_add,
                matchMonthSlash_drop rest month r1 hmo, drop_add,
                matchDay_drop r1 day (39 :: r3) hday, drop_add, drop_one_cons, drop_add,
                matchYearShort_drop r3 ys r4 hys]
              exact matchLineEnd_after r4 extra hle
        case _ y1 y2 y3 y4 r4 =>
          -- long-year branch
          split at h
          · cases hle : matchLineEnd r4 with
            | none => rw [hle] at h; simp at h
            | some extra =>
              rw [hle] at h
              obtain rfl := (Option.some.inj h).symm
              show (68 :: rest).drop
                  ((68 :: (month ++ 47 :: (day ++ 47 :: [y1, y2, y3, y4]))).length + extra)
                    = [] ∨
                ((68 :: rest).drop
                  ((68 :: (month ++ 47 :: (day ++ 47 :: [y1, y2, y3, y4]))).length
                    + extra)).head? = some 10
              have harith :
                  (68 :: (month ++ 47 :: (day ++ 47 :: [y1, y2, y3, y4]))).length + extra
                  = 1 + ((month.length + 1) + (day.length + (5 + extra))) := by
                simp [List.length_append]
                omega
              rw [harith, drop_add, drop_one_cons, drop_add,
                matchMonthSlash_drop rest month r1 hmo, drop_add,
                matchDay_drop r1 day (47 :: y1 :: y2 :: y3 :: y4 :: r4) hday, drop_add]
              exact matchLineEnd_after r4 extra hle
          · simp at h
        case _ => simp at h
  case _ => simp at h

/-- After a SPLIT span (the whole multi-line block) the input continues
with a line feed or ends. -/
theorem matchSplit_after (s : List Nat) (m : MatchRes) (h : matchSplit s = some m) :
    s.drop m.span = [] ∨ (s.drop m.span).head? = some 10 := by
  unfold matchSplit at h
  split at h
  case _ rest =>
    split at h
    case _ r2 heq =>
      split at h
      case _ r3 =>
        -- memo line present
        split at h
        case _ r4 heq2 =>
          split at h
          case _ r5 =>
            split at h
            · simp at h
            case _ cap r6 hnum =>
              cases hle : matchLineEnd r6 with
              | none => rw [hle] at h; simp at h
              | some extra =>
                rw [hle] at h
                obtain rfl := (Option.some.inj h).symm
                show (83 :: rest).drop
                    ((83 :: (takeLine rest ++ 10 :: 69 ::
                      (takeLine r3 ++ 10 :: 36 :: cap))).length + extra) = [] ∨
                  ((83 :: rest).drop
                    ((83 :: (takeLine rest ++ 10 :: 69 ::
                      (takeLine r3 ++ 10 :: 36 :: cap))).length + extra)).head? = some 10
                have harith :
                    (83 :: (takeLine rest ++ 10 :: 69 ::
                      (takeLine r3 ++ 10 :: 36 :: cap))).length + extra
                    = 1 + ((takeLine rest).length + (1 + (1 +
                        ((takeLine r3).length + (1 + (1 + (cap.length + extra))))))) := by
                  simp [List.length_append]
                  omega
                rw [harith, drop_add, drop_one_cons, drop_add, drop_takeLine, heq,
                  drop_add, drop_one_cons, drop_add, drop_one_cons, drop_add,
                  drop_takeLine, heq2, drop_add, drop_one_cons, drop_add, drop_one_cons,
                  drop_add, matchNum_drop r5 cap r6 hnum]
                exact matchLineEnd_after r6 extra hle
          case _ => simp at h
        case _ => simp at h
      case _ r3 =>
        -- no memo line
        split at h
        · simp at h
        case _ cap r4 hnum =>
          cases hle : matchLineEnd r4 with
          | none => rw [hle] at h; simp at h
          | some extra =>
            rw [hle] at h
            obtain rfl := (Option.some.inj h).symm
            show (83 :: rest).drop
                ((83 :: (takeLine rest ++ 10 :: 36 :: cap)).length + extra) = [] ∨
              ((83 :: rest).drop
                ((83 :: (takeLine rest ++ 10 :: 36 :: cap)).length + extra)).head? = some 10
            have harith : (83 :: (takeLine rest ++ 10 :: 36 :: cap)).length + extra
                = 1 + ((takeLine rest).length + (1 + (1 + (cap.length + extra)))) := by
              simp [List.length_append]
              omega
            rw [harith, drop_add, drop_one_cons, drop_add, drop_takeLine, heq,
              drop_add, drop_one_cons, drop_add, drop_one_cons, drop_add,
              matchNum_drop r3 cap r4 hnum]
            exact matchLineEnd_after r4 extra hle
      case _ => simp at h
    case _ => simp at h
  case _ => simp at h

/-- One END-terminated group in front of the record stream produces
exactly one transaction: the buffer extended by the casts of the group, a
kind upgraded to SPLIT when some group member is a SPLIT record, and the
builder restarts on the remaining stream with an empty buffer and NORMAL
kind. -/
theorem processRecords_group (rs : List QIFRecord) :
    ∀ (ttype : String) (buf rest : List QIFRecord) (rend : QIFRecord)
      (rs2 : List QIFRecord),
      rend.type = "END" → (∀ r ∈ rs, r.type ≠ "END") → rs.mapM castRecord = some rs2 →
      processRecords ttype buf (rs ++ rend :: rest) =
        (⟨if rs.any (fun r => r.type == "SPLIT") then TTYPE_SPLIT else ttype, buf ++ rs2⟩
           :: (processRecords TTYPE_NORMAL [] rest).1,
         (processRecords TTYPE_NORMAL [] rest).2) := by
  induction rs with
  | nil =>
    intro ttype buf rest rend rs2 hend hne hcast
    simp only [List.mapM_nil, pure, Option.some.injEq] at hcast
    subst hcast
    simp [processRecords, hend]
  | cons r rs ih =>
    intro ttype buf rest rend rs2 hend hne hcast
    have hr : r.type ≠ "END" := hne r (by simp)
    have hrb : (r.type == "END") = false := beq_eq_false_iff_ne.2 hr
    rw [List.mapM_cons] at hcast
    cases hc : castRecord r with
    | none => rw [hc] at hcast; simp at hcast
    | some r1 =>
      rw [hc] at hcast
      cases hm : rs.mapM castRecord with
      | none => rw [hm] at hcast; simp at hcast
      | some rs2p =>
        rw [hm] at hcast
        simp at hcast
        subst hcast
        have ihx := ih (if r.type == "SPLIT" then TTYPE_SPLIT else ttype) (buf ++ [r1])
          rest rend rs2p hend (fun x hx => hne x (by simp [hx]))
          (by rw [hm])
        simp only [List.cons_append, processRecords, hrb, Bool.false_eq_true, if_false, hc,
          List.append_eq]
        rw [ihx]
        have hkind : (if rs.any (fun x => x.type == "SPLIT") then TTYPE_SPLIT
              else if r.type == "SPLIT" then TTYPE_SPLIT else ttype)
            = (if (r :: rs).any (fun x => x.type == "SPLIT") then TTYPE_SPLIT else ttype) := by
          by_cases h1 : (r.type == "SPLIT") = true <;>
            by_cases h2 : rs.any (fun x => x.type == "SPLIT") = true <;>
              simp [List.any_cons, h1, h2]
        rw [hkind]
        simp [List.append_assoc]

/-- A record stream holding no END record and no failing cast builds
nothing: the records stay in the accumulation buffer and no transaction
and no error is produced. -/
theorem processRecords_no_end (rs : List QIFRecord) :
    ∀ (ttype : String) (buf : List QIFRecord),
      (∀ r ∈ rs, r.type ≠ "END") → (processRecords ttype buf rs).2 = false →
      processRecords ttype buf rs = ([], false) := by
  induction rs with
  | nil => intro ttype buf _ _; rfl
  | cons r rs ih =>
    intro ttype buf hne h2
    have hr : r.type ≠ "END" := hne r (by simp)
    have hrb : (r.type == "END") = false := beq_eq_false_iff_ne.2 hr
    cases hc : castRecord r with
    | none => simp [processRecords, hrb, hc] at h2
    | some r1 =>
      simp only [processRecords, hrb, Bool.false_eq_true, if_false, hc] at h2 ⊢
      exact ih _ _ (fun x hx => hne x (by simp [hx])) h2

/-- Records after the last END record never contribute a transaction. -/
theorem processRecords_drop_tail (pre : List QIFRecord) :
    ∀ (ttype : String) (buf tail : List QIFRecord),
      (∀ r ∈ tail, r.type ≠ "END") →
      (processRecords ttype buf (pre ++ tail)).2 = false →
      (processRecords ttype buf (pre ++ tail)).1 = (processRecords ttype buf pre).1 := by
  induction pre with
  | nil =>
    intro ttype buf tail hne h2
    simp only [List.nil_append] at h2 ⊢
    rw [processRecords_no_end tail ttype buf hne h2]
    rfl
  | cons r pre ih =>
    intro ttype buf tail hne h2
    by_cases hrb : (r.type == "END") = true
    · simp only [List.cons_append, processRecords, hrb, if_true] at h2 ⊢
      simp only [List.cons.injEq, true_and]
      exact ih _ _ _ hne (by simpa using h2)
    · have hrb2 : (r.type == "END") = false := by simpa using hrb
      cases hc : castRecord r with
      | none => simp [List.cons_append, processRecords, hrb2, hc] at h2
      | some r1 =>
        simp only [List.cons_append, processRecords, hrb2, Bool.false_eq_true, if_false,
          hc] at h2 ⊢
        exact ih _ _ _ hne h2

/-- takeWhile and dropWhile of a list whose members all satisfy `p`. -/
theorem takeWhile_all {α : Type} (p : α → Bool) (l : List α) (h : ∀ b ∈ l, p b = true) :
    l.takeWhile p = l ∧ l.dropWhile p = [] := by
  simpa using takeWhile_all_append p l [] h (Or.inl rfl)

/-- Digits are not commas. -/
theorem digit_ne_comma (c : Char) (h : c.isDigit = true) : (c != ',') = true := by
  rcases eq_or_ne c ',' with rfl | hne
  · exact absurd h (by decide)
  · simpa using hne

/-- Comma stripping leaves an all-digit string unchanged. -/
theorem filter_digits_id (fs : List Char) (h : ∀ c ∈ fs, c.isDigit = true) :
    fs.filter (· != ',') = fs :=
  List.filter_eq_self.mpr (fun c hc => digit_ne_comma c (h c hc))

/-- The unsigned float body on a pure digit string. -/
theorem pyFloatUnsigned_nofrac (sgn : Int) (ds2 : List Char)
    (hds : ∀ c ∈ ds2, c.isDigit = true) :
    pyFloatUnsigned sgn ds2
      = if ds2.isEmpty then none else some (Rat.divInt (sgn * digitsToNat ds2) 1) := by
  have h := takeWhile_all (fun c => c.isDigit) ds2 hds
  simp only [pyFloatUnsigned, h.1, h.2]

/-- The unsigned float body on digits, point and nonempty fraction digits. -/
theorem pyFloatUnsigned_frac (sgn : Int) (ds2 fs : List Char)
    (hds : ∀ c ∈ ds2, c.isDigit = true) (hfs1 : fs ≠ [])
    (hfs2 : ∀ c ∈ fs, c.isDigit = true) :
    pyFloatUnsigned sgn (ds2 ++ '.' :: fs)
      = some (Rat.divInt (sgn * (digitsToNat ds2 * 10 ^ fs.length + digitsToNat fs))
          (10 ^ fs.length)) := by
  have h1 := takeWhile_all_append (fun c => c.isDigit) ds2 ('.' :: fs) hds
    (Or.inr ⟨'.', fs, rfl, by decide⟩)
  have h2 := takeWhile_all (fun c => c.isDigit) fs hfs2
  simp only [pyFloatUnsigned, h1.1, h1.2]
  simp [h2.1, h2.2, List.isEmpty_iff, hfs1]

/-- A string whose head is no sign character is parsed unsigned. -/
theorem pyFloat_not_sign (s : List Char)
    (h : ∀ c, s.head? = some c → c ≠ '-' ∧ c ≠ '+') :
    pyFloat s = pyFloatUnsigned 1 s := by
  match s with
  | [] => rfl
  | c :: t =>
    obtain ⟨h1, h2⟩ := h c rfl
    unfold pyFloat
    split
    case _ r heq =>
      injection heq with hc _
      exact absurd hc h1
    case _ r heq =>
      injection heq with hc _
      exact absurd hc h2
    case _ => rfl

/-- Parsed value of a comma-free signed decimal string of the reachable
shape: sign marker, integer digits, optional point plus nonempty fraction
digits.  A string with no digit at all fails, anything else parses to its
exact decimal value. -/
theorem pyFloat_shape (neg : Bool) (ds2 : List Char) (frac : Option (List Char))
    (hds : ∀ c ∈ ds2, c.isDigit = true)
    (hfr : ∀ fs, frac = some fs → fs ≠ [] ∧ ∀ c ∈ fs, c.isDigit = true) :
    pyFloat ((cond neg ['-'] []) ++ ds2 ++ fracChars frac)
      = if ds2.isEmpty ∧ frac = none then none
        else some (decValue neg ds2 (fracDigits frac)) := by
  cases neg with
  | true =>
    have hshape : (cond true ['-'] []) ++ ds2 ++ fracChars frac
        = '-' :: (ds2 ++ fracChars frac) := by simp
    rw [hshape]
    show pyFloatUnsigned (-1) (ds2 ++ fracChars frac) = _
    cases frac with
    | none =>
      rw [show fracChars none = [] from rfl, List.append_nil,
        pyFloatUnsigned_nofrac (-1) ds2 hds]
      by_cases hemp : ds2.isEmpty
      · simp [hemp]
      · simp only [hemp, false_and, if_false, and_true]
        simp [decValue, fracDigits, digitsToNat]
    | some fs =>
      obtain ⟨hfs1, hfs2⟩ := hfr fs rfl
      rw [show fracChars (some fs) = '.' :: fs from rfl,
        pyFloatUnsigned_frac (-1) ds2 fs hds hfs1 hfs2]
      simp [decValue, fracDigits]
  | false =>
    have hshape : (cond false ['-'] []) ++ ds2 ++ fracChars frac
        = ds2 ++ fracChars frac := by simp
    rw [hshape]
    have hns : pyFloat (ds2 ++ fracChars frac) = pyFloatUnsigned 1 (ds2 ++ fracChars frac) := by
      apply pyFloat_not_sign
      intro c hc
      cases ds2 with
      | nil =>
        cases frac with
        | none => simp [fracChars] at hc
        | some fs =>
          simp only [fracChars, List.nil_append, List.head?_cons, Option.some.injEq] at hc
          cases hc
          exact ⟨by decide, by decide⟩
      | cons c0 t0 =>
        simp only [List.cons_append, List.head?_cons, Option.some.injEq] at hc
        cases hc
        have hdig : c.isDigit = true := hds c (by simp)
        constructor
        · intro hcc; rw [hcc] at hdig; exact absurd hdig (by decide)
        · intro hcc; rw [hcc] at hdig; exact absurd hdig (by decide)
    rw [hns]
    cases frac with
    | none =>
      rw [show fracChars none = [] from rfl, List.append_nil,
        pyFloatUnsigned_nofrac 1 ds2 hds]
      by_cases hemp : ds2.isEmpty
      · simp [hemp]
      · simp only [hemp, false_and, if_false, and_true]
        simp [decValue, fracDigits, digitsToNat]
    | some fs =>
      obtain ⟨hfs1, hfs2⟩ := hfr fs rfl
      rw [show fracChars (some fs) = '.' :: fs from rfl,
        pyFloatUnsigned_frac 1 ds2 fs hds hfs1 hfs2]
      simp [decValue, fracDigits]

/-- Comma stripping of an amount capture separates into its parts. -/
theorem stripCommas_amtChars (neg : Bool) (ds : List Char) (frac : Option (List Char))
    (hfr : ∀ fs, frac = some fs → ∀ c ∈ fs, c.isDigit = true) :
    stripCommas (amtChars neg ds frac)
      = (cond neg ['-'] []) ++ ds.filter (· != ',') ++ fracChars frac := by
  cases neg with
  | true =>
    cases frac with
    | none => simp [stripCommas, amtChars, fracChars, List.filter_append]
    | some fs =>
      simp [stripCommas, amtChars, fracChars, List.filter_append,
        filter_digits_id fs (hfr fs rfl)]
  | false =>
    cases frac with
    | none => simp [stripCommas, amtChars, fracChars, List.filter_append]
    | some fs =>
      simp [stripCommas, amtChars, fracChars, List.filter_append,
        filter_digits_id fs (hfr fs rfl)]

/-- The `[\r]?$` matcher consumes nothing at a line feed or at the end. -/
theorem matchLineEnd_zero (t : List Nat) (ht : t = [] ∨ t.head? = some 10) :
    matchLineEnd t = some 0 := by
  rcases ht with rfl | hh
  · rfl
  · cases t with
    | nil => simp at hh
    | cons b t2 =>
      simp only [List.head?_cons, Option.some.injEq] at hh
      subst hh
      simp [matchLineEnd]

/-- The unsigned amount body consumes exactly a well-formed capture in
front of a line boundary. -/
theorem matchNumBody_closed (ds : List Nat) (frac : Option (List Nat)) (t : List Nat)
    (hds1 : ds ≠ []) (hds2 : ∀ b ∈ ds, isNumChar b = true)
    (hfr : ∀ fs, frac = some fs → fs ≠ [] ∧ ∀ b ∈ fs, isDigitB b = true)
    (ht : t = [] ∨ t.head? = some 10) :
    matchNumBody ((ds ++ fracBytes frac) ++ t) = some (ds ++ fracBytes frac, t) := by
  have htail : fracBytes frac ++ t = [] ∨
      ∃ a t2, fracBytes frac ++ t = a :: t2 ∧ isNumChar a = false := by
    cases frac with
    | none =>
      rcases ht with rfl | hh
      · exact Or.inl rfl
      · cases t with
        | nil => simp at hh
        | cons b t2 =>
          simp only [List.head?_cons, Option.some.injEq] at hh
          subst hh
          exact Or.inr ⟨10, t2, rfl, by decide⟩
    | some fs => exact Or.inr ⟨46, fs ++ t, rfl, by decide⟩
  have h1 := takeWhile_all_append isNumChar ds (fracBytes frac ++ t) hds2 htail
  rw [List.append_assoc]
  simp only [matchNumBody, h1.1, h1.2]
  rw [if_neg (by simpa [List.isEmpty_iff] using hds1)]
  cases frac with
  | none =>
    rcases ht with rfl | hh
    · simp [fracBytes]
    · cases t with
      | nil => simp at hh
      | cons b t2 =>
        simp only [List.head?_cons, Option.some.injEq] at hh
        subst hh
        simp [fracBytes]
  | some fs =>
    obtain ⟨hfs1, hfs2⟩ := hfr fs rfl
    have htail2 : t = [] ∨ ∃ a t2, t = a :: t2 ∧ isDigitB a = false := by
      rcases ht with rfl | hh
      · exact Or.inl rfl
      · cases t with
        | nil => simp at hh
        | cons b t2 =>
          simp only [List.head?_cons, Option.some.injEq] at hh
          subst hh
          exact Or.inr ⟨10, t2, rfl, by decide⟩
    have h2 := takeWhile_all_append isDigitB fs t hfs2 htail2
    show (match (46 :: (fs ++ t) : List Nat) with
      | 46 :: r2 =>
        let fs2 := r2.takeWhile isDigitB
        if fs2.isEmpty then some (ds, 46 :: (fs ++ t))
        else some (ds ++ 46 :: fs2, r2.dropWhile isDigitB)
      | _ => some (ds, 46 :: (fs ++ t))) = some (ds ++ fracBytes (some fs), t)
    simp only [h2.1, h2.2]
    rw [if_neg (by simpa [List.isEmpty_iff] using hfs1)]
    simp [fracBytes]

/-- The signed amount matcher consumes exactly a well-formed capture in
front of a line boundary. -/
theorem matchNum_closed (neg : Bool) (ds : List Nat) (frac : Option (List Nat))
    (t : List Nat)
    (hds1 : ds ≠ []) (hds2 : ∀ b ∈ ds, isNumChar b = true)
    (hfr : ∀ fs, frac = some fs → fs ≠ [] ∧ ∀ b ∈ fs, isDigitB b = true)
    (ht : t = [] ∨ t.head? = some 10) :
    matchNum (amtBytes neg ds frac ++ t) = some (amtBytes neg ds frac, t) := by
  have hbody := matchNumBody_closed ds frac t hds1 hds2 hfr ht
  cases neg with
  | true =>
    have hshape : amtBytes true ds frac ++ t = 45 :: ((ds ++ fracBytes frac) ++ t) := by
      simp [amtBytes]
    rw [hshape]
    show (matchNumBody ((ds ++ fracBytes frac) ++ t)).map (fun p => (45 :: p.1, p.2))
      = some (amtBytes true ds frac, t)
    rw [hbody]
    simp [amtBytes]
  | false =>
    have hshape : amtBytes false ds frac ++ t = (ds ++ fracBytes frac) ++ t := by
      simp [amtBytes]
    rw [hshape]
    cases ds with
    | nil => exact absurd rfl hds1
    | cons d0 ds2 =>
      have hd0 : isNumChar d0 = true := hds2 d0 (by simp)
      have hd0ne : d0 ≠ 45 := by
        intro hcc
        rw [hcc] at hd0
        exact absurd hd0 (by decide)
      unfold matchNum
      split
      case _ s1 heq =>
        rw [List.cons_append, List.cons_append] at heq
        injection heq with hc _
        exact absurd hc hd0ne
      case _ =>
        rw [hbody]
        simp [amtBytes]

/-- On an `S`-headed suffix the recognizer reduces to the SPLIT matcher:
all ten earlier patterns fail on the marker byte, and END comes later in
the priority list. -/
theorem recognizeSuffix_split (rest : List Nat) :
    recognizeSuffix (83 :: rest) = matchSplit (83 :: rest) := by
  have h1 : matchHeader (83 :: rest) = none := rfl
  have h2 : matchDate (83 :: rest) = none := rfl
  have h3 : matchAmount 84 "T_AMOUNT" (83 :: rest) = none := rfl
  have h4 : matchAmount 85 "U_AMOUNT" (83 :: rest) = none := rfl
  have h5 : matchCleared (83 :: rest) = none := rfl
  have h6 : matchGeneral 80 "PAYEE" (83 :: rest) = none := rfl
  have h7 : matchGeneral 77 "MEMO" (83 :: rest) = none := rfl
  have h8 : matchGeneral 76 "CATEGORY" (83 :: rest) = none := rfl
  have h9 : matchGeneral 65 "ADDRESS" (83 :: rest) = none := rfl
  have h10 : matchGeneral 78 "N_REC" (83 :: rest) = none := rfl
  simp only [recognizeSuffix, qifMatchers, firstMatch, h1, h2, h3, h4, h5, h6, h7, h8,
    h9, h10]
  cases hm : matchSplit (83 :: rest) with
  | some r => rfl
  | none => rfl

end Lemmas

section Claims

/-- C1: a sequence of non-End records followed by an End record yields
exactly one Transaction holding exactly the casts of those records in
their input order, with kind SPLIT when at least one of them is a Split
record and NORMAL otherwise; the End record itself is not among the
transaction's records, and the builder continues on the remaining stream
with an empty buffer (and NORMAL kind). -/
theorem transaction_grouping (rs rest rs2 : List QIFRecord) (rend : QIFRecord)
    (hend : rend.type = "END") (hne : ∀ r ∈ rs, r.type ≠ "END")
    (hcast : rs.mapM castRecord = some rs2) :
    processRecords TTYPE_NORMAL [] (rs ++ rend :: rest) =
      (⟨if rs.any (fun r => r.type == "SPLIT") then TTYPE_SPLIT else TTYPE_NORMAL, rs2⟩
         :: (processRecords TTYPE_NORMAL [] rest).1,
       (processRecords TTYPE_NORMAL [] rest).2) := by
  simpa using processRecords_group rs TTYPE_NORMAL [] rest rend rs2 hend hne hcast

/-- Witness for C1 at a concrete two-record group. -/
theorem transaction_grouping_witness :
    processRecords TTYPE_NORMAL []
        ([⟨"PAYEE", [("PAYEE", some (.vstr ['P', 'X'])), ("value", some (.vstr ['X']))]⟩]
          ++ ⟨"END", [("END", some (.vstr ['^']))]⟩ :: []) =
      (⟨if [(⟨"PAYEE", [("PAYEE", some (.vstr ['P', 'X'])),
              ("value", some (.vstr ['X']))]⟩ : QIFRecord)].any (fun r => r.type == "SPLIT")
          then TTYPE_SPLIT else TTYPE_NORMAL,
        [⟨"PAYEE", [("value", some (.vstr ['X']))]⟩]⟩
         :: (processRecords TTYPE_NORMAL [] []).1,
       (processRecords TTYPE_NORMAL [] []).2) :=
  transaction_grouping
    [⟨"PAYEE", [("PAYEE", some (.vstr ['P', 'X'])), ("value", some (.vstr ['X']))]⟩]
    [] [⟨"PAYEE", [("value", some (.vstr ['X']))]⟩]
    ⟨"END", [("END", some (.vstr ['^']))]⟩ (by decide) (by decide) (by decide)

/-- C2: a successful recognition at cursor `pos` is the first matcher of
the fixed list (Header, Date, TotalAmount, UnitAmount, Cleared, Payee,
Memo, Category, Address, Number, Split, End) that matches the suffix at
the cursor, every earlier pattern failing there; the scan then continues
at the end offset of the matched span plus one. -/
theorem recognizer_priority_and_cursor (text : List Nat) (pos : Nat) (m : MatchRes)
    (q : QIFRecord) (h : recognizeAt text pos = some m) (hq : decodeRecord m = some q) :
    (∃ i : Fin qifMatchers.length,
        qifMatchers.get i (text.drop pos) = some m ∧
        ∀ j : Fin qifMatchers.length, j.val < i.val →
          qifMatchers.get j (text.drop pos) = none)
    ∧ recordize (text.drop pos)
        = (q :: (recordize (text.drop (pos + m.span + 1))).1,
           (recordize (text.drop (pos + m.span + 1))).2) := by
  constructor
  · exact firstMatch_order qifMatchers (text.drop pos) m h
  · have hstep := recordize_cons (text.drop pos) m q h hq
    rw [List.drop_drop] at hstep
    have harr : pos + (m.span + 1) = pos + m.span + 1 := by omega
    rw [harr] at hstep
    exact hstep

/-- Witness for C2 at a concrete PAYEE line. -/
theorem recognizer_priority_and_cursor_witness :
    (∃ i : Fin qifMatchers.length,
        qifMatchers.get i ((bytesOf "PX\n").drop 0)
          = some ⟨"PAYEE", [("PAYEE", some [80, 88]), ("value", some [88])], 2⟩ ∧
        ∀ j : Fin qifMatchers.length, j.val < i.val →
          qifMatchers.get j ((bytesOf "PX\n").drop 0) = none)
    ∧ recordize ((bytesOf "PX\n").drop 0)
        = (⟨"PAYEE", [("PAYEE", some (.vstr ['P', 'X'])), ("value", some (.vstr ['X']))]⟩
             :: (recordize ((bytesOf "PX\n").drop (0 + 2 + 1))).1,
           (recordize ((bytesOf "PX\n").drop (0 + 2 + 1))).2) :=
  recognizer_priority_and_cursor (bytesOf "PX\n") 0
    ⟨"PAYEE", [("PAYEE", some [80, 88]), ("value", some [88])], 2⟩
    ⟨"PAYEE", [("PAYEE", some (.vstr ['P', 'X'])), ("value", some (.vstr ['X']))]⟩
    (by decide) (by decide)

/-- C6 counterexample: on the input `D 0/ 0'16\nQ^` the lexical scan does
get stuck at the line `Q^` before the end of the input, yet the parse run
ends with the ValueError of the date caster (raised while consuming the
first record) and not with the SyntaxError: the claim's promised lexical
error is preempted by the earlier cast failure. -/
theorem lexical_error_preempted_by_cast_cex :
    (recordize (bytesOf "D 0/ 0'16\nQ^")).2 = .lexErr (bytesOf "Q^")
    ∧ parse (.str ("D 0/ 0'16\nQ^".data)) = ⟨[], .castFail⟩ := by
  exact ⟨by decide, by decide⟩

/-- C6 (amended): when the lexical scan gets stuck before the end of the
input and every record scanned before that point casts successfully, the
parse run ends with the SyntaxError carrying the offending offset and the
unmatched remainder (the snippet is exactly the text from that offset,
which is not empty), and the transactions yielded are exactly those
completed before the malformed point. -/
theorem lexical_error_reporting (text : List Nat) (recs : List QIFRecord) (rem : List Nat)
    (hscan : recordize text = (recs, .lexErr rem))
    (hcast : (processRecords TTYPE_NORMAL [] recs).2 = false) :
    parse (.bytes text)
      = ⟨(processRecords TTYPE_NORMAL [] recs).1, .lexical (text.length - rem.length) rem⟩
    ∧ text.drop (text.length - rem.length) = rem ∧ rem ≠ [] := by
  have hsfx := scanFuel_lexErr_suffix (text.length + 1) text recs rem hscan
  refine ⟨?_, ?_, hsfx.2⟩
  · simp only [parse, normalizeInput, hscan, hcast]
    rfl
  · obtain ⟨t, ht⟩ := hsfx.1
    subst ht
    have hlen : (t ++ rem).length - rem.length = t.length := by
      simp [List.length_append]
    rw [hlen, List.drop_left]

/-- Witness for C6 on the repository's own bad input: the four records
before `Q^` cast fine, the parse ends with the lexical error at offset 37
whose snippet `Q^\nZ^` starts with `Q^`, and the one fully terminated
transaction of a second input is still yielded before the error. -/
theorem lexical_error_reporting_witness :
    (parse (.bytes (bytesOf "D11/ 8'16\nU-107.88\nT-107.88\nPVERIZON\nQ^\nZ^"))
        = ⟨(processRecords TTYPE_NORMAL []
              [⟨"DATE", [("DATE", some (.vstr "D11/ 8'16".data)),
                         ("month", some (.vstr "11".data)),
                         ("day", some (.vstr " 8".data)),
                         ("year_short", some (.vstr "16".data)), ("year_long", none)]⟩,
               ⟨"U_AMOUNT", [("U_AMOUNT", some (.vstr "U-107.88".data)),
                             ("amount", some (.vstr "-107.88".data))]⟩,
               ⟨"T_AMOUNT", [("T_AMOUNT", some (.vstr "T-107.88".data)),
                             ("amount", some (.vstr "-107.88".data))]⟩,
               ⟨"PAYEE", [("PAYEE", some (.vstr "PVERIZON".data)),
                          ("value", some (.vstr "VERIZON".data))]⟩]).1,
           .lexical ((bytesOf "D11/ 8'16\nU-107.88\nT-107.88\nPVERIZON\nQ^\nZ^").length
               - (bytesOf "Q^\nZ^").length) (bytesOf "Q^\nZ^")⟩
      ∧ (bytesOf "D11/ 8'16\nU-107.88\nT-107.88\nPVERIZON\nQ^\nZ^").drop
          ((bytesOf "D11/ 8'16\nU-107.88\nT-107.88\nPVERIZON\nQ^\nZ^").length
            - (bytesOf "Q^\nZ^").length) = bytesOf "Q^\nZ^"
      ∧ bytesOf "Q^\nZ^" ≠ [])
    ∧ (parse (.bytes (bytesOf "PX\n^\nQ^"))
        = ⟨(processRecords TTYPE_NORMAL []
              [⟨"PAYEE", [("PAYEE", some (.vstr ['P', 'X'])),
                          ("value", some (.vstr ['X']))]⟩,
               ⟨"END", [("END", some (.vstr ['^']))]⟩]).1,
           .lexical ((bytesOf "PX\n^\nQ^").length - (bytesOf "Q^").length) (bytesOf "Q^")⟩
      ∧ (bytesOf "PX\n^\nQ^").drop
          ((bytesOf "PX\n^\nQ^").length - (bytesOf "Q^").length) = bytesOf "Q^"
      ∧ bytesOf "Q^" ≠ []) :=
  ⟨lexical_error_reporting (bytesOf "D11/ 8'16\nU-107.88\nT-107.88\nPVERIZON\nQ^\nZ^")
      [⟨"DATE", [("DATE", some (.vstr "D11/ 8'16".data)), ("month", some (.vstr "11".data)),
                 ("day", some (.vstr " 8".data)), ("year_short", some (.vstr "16".data)),
                 ("year_long", none)]⟩,
       ⟨"U_AMOUNT", [("U_AMOUNT", some (.vstr "U-107.88".data)),
                     ("amount", some (.vstr "-107.88".data))]⟩,
       ⟨"T_AMOUNT", [("T_AMOUNT", some (.vstr "T-107.88".data)),
                     ("amount", some (.vstr "-107.88".data))]⟩,
       ⟨"PAYEE", [("PAYEE", some (.vstr "PVERIZON".data)),
                  ("value", some (.vstr "VERIZON".data))]⟩]
      (bytesOf "Q^\nZ^") (by decide) (by decide),
   lexical_error_reporting (bytesOf "PX\n^\nQ^")
      [⟨"PAYEE", [("PAYEE", some (.vstr ['P', 'X'])), ("value", some (.vstr ['X']))]⟩,
       ⟨"END", [("END", some (.vstr ['^']))]⟩]
      (bytesOf "Q^") (by decide) (by decide)⟩

/-- C7 counterexample: on an input that ends while the accumulation
buffer is non-empty and no End record was seen, the parser raises nothing
at all — the run ends in the ordinary exhaustion state (there is no
truncation error anywhere in the pipeline), and the partial records are
silently discarded. -/
theorem truncated_input_no_error_cex :
    parse (.str "PVERIZON\n".data) = ⟨[], .ok⟩ := by decide

/-- C7 (amended): when the input is exhausted with trailing records after
the last End record and no cast fails, the parser terminates normally
with no error of any kind, and the partially accumulated records are
never emitted as a Transaction: the transactions are exactly those of the
End-terminated part of the stream. -/
theorem truncated_tail_dropped (text : List Nat) (pre tail : List QIFRecord)
    (hscan : recordize text = (pre ++ tail, .done))
    (_hne : tail ≠ []) (hnoend : ∀ r ∈ tail, r.type ≠ "END")
    (hcast : (processRecords TTYPE_NORMAL [] (pre ++ tail)).2 = false) :
    parse (.bytes text) = ⟨(processRecords TTYPE_NORMAL [] pre).1, .ok⟩ := by
  simp only [parse, normalizeInput, hscan, hcast]
  rw [processRecords_drop_tail pre TTYPE_NORMAL [] tail hnoend hcast]
  simp

/-- Witness for C7 on a concrete input with one complete transaction and
one trailing unterminated MEMO record. -/
theorem truncated_tail_dropped_witness :
    parse (.bytes (bytesOf "PX\n^\nMY\n"))
      = ⟨(processRecords TTYPE_NORMAL []
            [⟨"PAYEE", [("PAYEE", some (.vstr ['P', 'X'])),
                        ("value", some (.vstr ['X']))]⟩,
             ⟨"END", [("END", some (.vstr ['^']))]⟩]).1, .ok⟩ :=
  truncated_tail_dropped (bytesOf "PX\n^\nMY\n")
    [⟨"PAYEE", [("PAYEE", some (.vstr ['P', 'X'])), ("value", some (.vstr ['X']))]⟩,
     ⟨"END", [("END", some (.vstr ['^']))]⟩]
    [⟨"MEMO", [("MEMO", some (.vstr ['M', 'Y'])), ("value", some (.vstr ['Y']))]⟩]
    (by decide) (by decide) (by decide) (by decide)

/-- C8 counterexample: the single byte `^` with no line-feed terminator
is accepted as an END record (the `$` of the pattern also holds at the
end of the input), and the parse of that input even yields a transaction. -/
theorem record_without_lf_accepted_cex :
    recognizeSuffix (bytesOf "^") = some ⟨"END", [("END", some [94])], 1⟩
    ∧ parse (.str ['^']) = ⟨[⟨TTYPE_NORMAL, []⟩], .ok⟩ := by
  exact ⟨by decide, by decide⟩

/-- C8 (amended): record lines end with an optional carriage return
followed by a line feed or by the end of the input: whatever record is
recognized, the byte right after its matched span is a line feed, or the
input ends there (any carriage return being inside the span). -/
theorem record_terminator (s : List Nat) (m : MatchRes) (h : recognizeSuffix s = some m) :
    s.drop m.span = [] ∨ (s.drop m.span).head? = some 10 := by
  obtain ⟨f, hf, hfs⟩ := firstMatch_mem qifMatchers s m h
  simp only [qifMatchers, List.mem_cons, List.not_mem_nil, or_false] at hf
  rcases hf with rfl | rfl | rfl | rfl | rfl | rfl | rfl | rfl | rfl | rfl | rfl | rfl
  · exact matchHeader_after s m hfs
  · exact matchDate_after s m hfs
  · exact matchAmount_after 84 "T_AMOUNT" s m hfs
  · exact matchAmount_after 85 "U_AMOUNT" s m hfs
  · exact matchCleared_after s m hfs
  · exact matchGeneral_after 80 "PAYEE" s m hfs
  · exact matchGeneral_after 77 "MEMO" s m hfs
  · exact matchGeneral_after 76 "CATEGORY" s m hfs
  · exact matchGeneral_after 65 "ADDRESS" s m hfs
  · exact matchGeneral_after 78 "N_REC" s m hfs
  · exact matchSplit_after s m hfs
  · exact matchEnd_after s m hfs

/-- Witness for C8 (amended) at a concrete END record followed by more
input: the byte after the span is the line feed. -/
theorem record_terminator_witness :
    (bytesOf "^\nPX\n").drop 1 = [] ∨ ((bytesOf "^\nPX\n").drop 1).head? = some 10 :=
  record_terminator (bytesOf "^\nPX\n") ⟨"END", [("END", some [94])], 1⟩ (by decide)

/-- C3: a split block — category line `Scategory`, optional memo line
`Ememo`, mandatory amount line beginning with `$` — is recognized as
exactly one record spanning the whole multi-line block, with category,
memo and amount captures; casting that record yields the three sub-fields
category, amount and memo when the memo line is present, and exactly the
two sub-fields category and amount when it is absent. -/
theorem split_block_atomicity :
    (∀ (cat memo : List Nat) (neg : Bool) (ds : List Nat) (frac : Option (List Nat))
       (t : List Nat),
       (∀ b ∈ cat, b ≠ 10) → (∀ b ∈ memo, b ≠ 10) →
       ds ≠ [] → (∀ b ∈ ds, isNumChar b = true) →
       (∀ fs, frac = some fs → fs ≠ [] ∧ ∀ b ∈ fs, isDigitB b = true) →
       (t = [] ∨ t.head? = some 10) →
       recognizeSuffix
           (83 :: (cat ++ 10 :: 69 :: (memo ++ 10 :: 36 :: (amtBytes neg ds frac ++ t))))
         = some ⟨"SPLIT",
             [("SPLIT", some (83 :: (cat ++ 10 :: 69 ::
                 (memo ++ 10 :: 36 :: amtBytes neg ds frac)))),
              ("category", some cat), ("memo", some memo),
              ("amount", some (amtBytes neg ds frac))],
             (83 :: (cat ++ 10 :: 69 :: (memo ++ 10 :: 36 :: amtBytes neg ds frac))).length⟩)
    ∧ (∀ (cat : List Nat) (neg : Bool) (ds : List Nat) (frac : Option (List Nat))
       (t : List Nat),
       (∀ b ∈ cat, b ≠ 10) →
       ds ≠ [] → (∀ b ∈ ds, isNumChar b = true) →
       (∀ fs, frac = some fs → fs ≠ [] ∧ ∀ b ∈ fs, isDigitB b = true) →
       (t = [] ∨ t.head? = some 10) →
       recognizeSuffix (83 :: (cat ++ 10 :: 36 :: (amtBytes neg ds frac ++ t)))
         = some ⟨"SPLIT",
             [("SPLIT", some (83 :: (cat ++ 10 :: 36 :: amtBytes neg ds frac))),
              ("category", some cat), ("memo", none),
              ("amount", some (amtBytes neg ds frac))],
             (83 :: (cat ++ 10 :: 36 :: amtBytes neg ds frac)).length⟩)
    ∧ (∀ (catS memoS amtS : List Char) (full : Option PyVal) (q : ℚ),
       pyFloat (stripCommas amtS) = some q →
       castSplit ⟨"SPLIT", [("SPLIT", full), ("category", some (.vstr catS)),
           ("memo", some (.vstr memoS)), ("amount", some (.vstr amtS))]⟩
         = some ⟨"SPLIT", [("category", some (.vstr catS)), ("amount", some (.vfloat q)),
             ("memo", some (.vstr memoS))]⟩)
    ∧ (∀ (catS amtS : List Char) (full : Option PyVal) (q : ℚ),
       pyFloat (stripCommas amtS) = some q →
       castSplit ⟨"SPLIT", [("SPLIT", full), ("category", some (.vstr catS)),
           ("memo", none), ("amount", some (.vstr amtS))]⟩
         = some ⟨"SPLIT",
             [("category", some (.vstr catS)), ("amount", some (.vfloat q))]⟩) := by
  refine ⟨?_, ?_, ?_, ?_⟩
  · intro cat memo neg ds frac t hcat hmemo hds1 hds2 hfr ht
    have hcatb : ∀ b ∈ cat, (b != 10) = true := fun b hb => by simpa using hcat b hb
    have hmemob : ∀ b ∈ memo, (b != 10) = true := fun b hb => by simpa using hmemo b hb
    have hcat1 := takeWhile_all_append (fun b => b != 10) cat
      (10 :: 69 :: (memo ++ 10 :: 36 :: (amtBytes neg ds frac ++ t))) hcatb
      (Or.inr ⟨10, _, rfl, by decide⟩)
    have hmemo1 := takeWhile_all_append (fun b => b != 10) memo
      (10 :: 36 :: (amtBytes neg ds frac ++ t)) hmemob
      (Or.inr ⟨10, _, rfl, by decide⟩)
    have hnum := matchNum_closed neg ds frac t hds1 hds2 hfr ht
    have hle := matchLineEnd_zero t ht
    rw [recognizeSuffix_split]
    simp only [matchSplit, takeLine, dropLine, hcat1.1, hcat1.2, hmemo1.1, hmemo1.2,
      hnum, hle, Nat.add_zero]
  · intro cat neg ds frac t hcat hds1 hds2 hfr ht
    have hcatb : ∀ b ∈ cat, (b != 10) = true := fun b hb => by simpa using hcat b hb
    have hcat1 := takeWhile_all_append (fun b => b != 10) cat
      (10 :: 36 :: (amtBytes neg ds frac ++ t)) hcatb
      (Or.inr ⟨10, _, rfl, by decide⟩)
    have hnum := matchNum_closed neg ds frac t hds1 hds2 hfr ht
    have hle := matchLineEnd_zero t ht
    rw [recognizeSuffix_split]
    simp only [matchSplit, takeLine, dropLine, hcat1.1, hcat1.2, hnum, hle, Nat.add_zero]
  · intro catS memoS amtS full q hq
    simp [castSplit, dlookup, getStr, List.find?, hq]
  · intro catS amtS full q hq
    simp [castSplit, dlookup, getStr, List.find?, hq]

/-- Witness for C3 on the concrete blocks `SCat\nEm\n$-1.5` (memo
present, three sub-fields) and `SCat\n$-1.5` (memo absent, two
sub-fields), each followed by a line feed and more input. -/
theorem split_block_atomicity_witness :
    (recognizeSuffix
        (83 :: ([67, 97, 116] ++ 10 :: 69 ::
          ([109] ++ 10 :: 36 :: (amtBytes true [49] (some [53]) ++ [10, 94]))))
      = some ⟨"SPLIT",
          [("SPLIT", some (83 :: ([67, 97, 116] ++ 10 :: 69 ::
              ([109] ++ 10 :: 36 :: amtBytes true [49] (some [53]))))),
           ("category", some [67, 97, 116]), ("memo", some [109]),
           ("amount", some (amtBytes true [49] (some [53])))],
          (83 :: ([67, 97, 116] ++ 10 :: 69 ::
            ([109] ++ 10 :: 36 :: amtBytes true [49] (some [53])))).length⟩)
    ∧ (recognizeSuffix
        (83 :: ([67, 97, 116] ++ 10 :: 36 :: (amtBytes true [49] (some [53]) ++ [10, 94])))
      = some ⟨"SPLIT",
          [("SPLIT", some (83 :: ([67, 97, 116] ++ 10 :: 36 ::
              amtBytes true [49] (some [53])))),
           ("category", some [67, 97, 116]), ("memo", none),
           ("amount", some (amtBytes true [49] (some [53])))],
          (83 :: ([67, 97, 116] ++ 10 :: 36 :: amtBytes true [49] (some [53]))).length⟩)
    ∧ castSplit ⟨"SPLIT", [("SPLIT", none), ("category", some (.vstr "Cat".data)),
          ("memo", some (.vstr "m".data)), ("amount", some (.vstr "-1.5".data))]⟩
        = some ⟨"SPLIT", [("category", some (.vstr "Cat".data)),
            ("amount", some (.vfloat (Rat.divInt (-15) 10))),
            ("memo", some (.vstr "m".data))]⟩
    ∧ castSplit ⟨"SPLIT", [("SPLIT", none), ("category", some (.vstr "Cat".data)),
          ("memo", none), ("amount", some (.vstr "-1.5".data))]⟩
        = some ⟨"SPLIT", [("category", some (.vstr "Cat".data)),
            ("amount", some (.vfloat (Rat.divInt (-15) 10)))]⟩ :=
  ⟨split_block_atomicity.1 [67, 97, 116] [109] true [49] (some [53]) [10, 94]
      (by decide) (by decide) (by decide) (by decide) (by decide) (by decide),
   split_block_atomicity.2.1 [67, 97, 116] true [49] (some [53]) [10, 94]
      (by decide) (by decide) (by decide) (by decide) (by decide),
   split_block_atomicity.2.2.1 "Cat".data "m".data "-1.5".data none (Rat.divInt (-15) 10)
      (by decide),
   split_block_atomicity.2.2.2 "Cat".data "-1.5".data none (Rat.divInt (-15) 10)
      (by decide)⟩

/-- C4: casting a Date record with a matched short-year field of value
`y` resolves the year to `2000 + y` when `y ≤ 50` and to `1900 + y` when
`y > 50`, while a matched 4-digit year field is taken unchanged; month and
day fields are parsed as integers, and the triple forms the calendar date
(the cast fails instead of defaulting when the triple is no valid date). -/
theorem date_year_pivot :
    (∀ (f yl : Option PyVal) (ms ds ys : List Char) (m d y : Nat),
      pyInt ms = some m → pyInt ds = some d → pyInt ys = some y →
      castDate ⟨"DATE", [("DATE", f), ("month", some (.vstr ms)), ("day", some (.vstr ds)),
                         ("year_short", some (.vstr ys)), ("year_long", yl)]⟩
        = (if validDate (if y ≤ 50 then y + 2000 else y + 1900) m d then
             some ⟨"DATE",
               [("date", some (.vdate (if y ≤ 50 then y + 2000 else y + 1900) m d))]⟩
           else none))
    ∧ (∀ (f : Option PyVal) (ms ds yl : List Char) (m d y : Nat),
      pyInt ms = some m → pyInt ds = some d → pyInt yl = some y →
      castDate ⟨"DATE", [("DATE", f), ("month", some (.vstr ms)), ("day", some (.vstr ds)),
                         ("year_short", none), ("year_long", some (.vstr yl))]⟩
        = (if validDate y m d then some ⟨"DATE", [("date", some (.vdate y m d))]⟩
           else none)) := by
  constructor
  · intro f yl ms ds ys m d y hm hd hy
    simp only [castDate, dlookup, getStr, List.find?]
    simp [hm, hd, hy]
  · intro f ms ds yl m d y hm hd hy
    simp only [castDate, dlookup, getStr, List.find?]
    simp [hm, hd, hy]

/-- Witness for C4: the year fields `16` and `51` of the spec's examples
resolve to 2016 and 1951 (`y + 2000` versus `y + 1900`). -/
theorem date_year_pivot_witness :
    (pyInt ['1', '1'] = some 11 ∧ pyInt [' ', '8'] = some 8 ∧ pyInt ['1', '6'] = some 16
      ∧ pyInt ['1', '2'] = some 12 ∧ pyInt ['5', '1'] = some 51
      ∧ pyInt ['1', '9', '7', '0'] = some 1970)
    ∧ castDate ⟨"DATE", [("DATE", none), ("month", some (.vstr ['1', '1'])),
                         ("day", some (.vstr [' ', '8'])),
                         ("year_short", some (.vstr ['1', '6'])), ("year_long", none)]⟩
        = (if validDate (if 16 ≤ 50 then 16 + 2000 else 16 + 1900) 11 8 then
             some ⟨"DATE",
               [("date", some (.vdate (if 16 ≤ 50 then 16 + 2000 else 16 + 1900) 11 8))]⟩
           else none)
    ∧ castDate ⟨"DATE", [("DATE", none), ("month", some (.vstr ['1', '1'])),
                         ("day", some (.vstr ['1', '2'])),
                         ("year_short", some (.vstr ['5', '1'])), ("year_long", none)]⟩
        = (if validDate (if 51 ≤ 50 then 51 + 2000 else 51 + 1900) 11 12 then
             some ⟨"DATE",
               [("date", some (.vdate (if 51 ≤ 50 then 51 + 2000 else 51 + 1900) 11 12))]⟩
           else none)
    ∧ castDate ⟨"DATE", [("DATE", none), ("month", some (.vstr ['1', '1'])),
                         ("day", some (.vstr ['1', '2'])),
                         ("year_short", none), ("year_long", some (.vstr ['1', '9', '7', '0']))]⟩
        = (if validDate 1970 11 12 then
             some ⟨"DATE", [("date", some (.vdate 1970 11 12))]⟩
           else none) :=
  ⟨by decide,
   date_year_pivot.1 none none ['1', '1'] [' ', '8'] ['1', '6'] 11 8 16
     (by decide) (by decide) (by decide),
   date_year_pivot.1 none none ['1', '1'] ['1', '2'] ['5', '1'] 11 12 51
     (by decide) (by decide) (by decide),
   date_year_pivot.2 none ['1', '1'] ['1', '2'] ['1', '9', '7', '0'] 11 12 1970
     (by decide) (by decide) (by decide)⟩

/-- C5: casting a TotalAmount or UnitAmount record strips the comma
thousands separators from the captured amount text and parses the rest as
a signed decimal with its exact value; when nothing but sign and commas
remains (an empty numeric string after stripping) the cast is an error
(`none`), never a defaulted value. -/
theorem amount_cast_strips_commas (t : String) (ht : t = "T_AMOUNT" ∨ t = "U_AMOUNT")
    (full : Option PyVal) (neg : Bool) (ds : List Char) (frac : Option (List Char))
    (hds : ∀ c ∈ ds, c.isDigit = true ∨ c = ',')
    (hfr : ∀ fs, frac = some fs → fs ≠ [] ∧ ∀ c ∈ fs, c.isDigit = true) :
    castAmount ⟨t, [(t, full), ("amount", some (.vstr (amtChars neg ds frac)))]⟩
      = if (ds.filter (· != ',')).isEmpty ∧ frac = none then none
        else some ⟨t, [("amount",
            some (.vfloat (decValue neg (ds.filter (· != ',')) (fracDigits frac))))]⟩ := by
  have hdigits : ∀ c ∈ ds.filter (· != ','), c.isDigit = true := by
    intro c hc
    rw [List.mem_filter] at hc
    rcases hds c hc.1 with hd | hcm
    · exact hd
    · exact absurd (by simpa using hc.2) (by simp [hcm])
  have hstrip := stripCommas_amtChars neg ds frac (fun fs hfs => (hfr fs hfs).2)
  have hshape := pyFloat_shape neg (ds.filter (· != ',')) frac hdigits hfr
  rcases ht with rfl | rfl
  · simp only [castAmount, dlookup, List.find?, getStr]
    rw [show (("T_AMOUNT" : String) == "amount") = false from by decide]
    simp only [cond_false, cond_true, List.find?]
    rw [show (("amount" : String) == "amount") = true from by decide]
    simp only [Option.map]
    rw [hstrip, hshape]
    by_cases hcase : (ds.filter (· != ',')).isEmpty = true ∧ frac = none
    · rw [if_pos hcase, if_pos hcase]
    · rw [if_neg hcase, if_neg hcase]
  · simp only [castAmount, dlookup, List.find?, getStr]
    rw [show (("U_AMOUNT" : String) == "amount") = false from by decide]
    simp only [cond_false, cond_true, List.find?]
    rw [show (("amount" : String) == "amount") = true from by decide]
    simp only [Option.map]
    rw [hstrip, hshape]
    by_cases hcase : (ds.filter (· != ',')).isEmpty = true ∧ frac = none
    · rw [if_pos hcase, if_pos hcase]
    · rw [if_neg hcase, if_neg hcase]

/-- Witness for C5: the capture of `U-1,570.73` casts to the exact value
-1570.73 (as the rational -157073/100), and the capture `,` of the
degenerate line `T,` is a caster-level error. -/
theorem amount_cast_strips_commas_witness :
    (castAmount ⟨"U_AMOUNT", [("U_AMOUNT", some (.vstr "U-1,570.73".data)),
          ("amount", some (.vstr (amtChars true "1,570".data (some "73".data))))]⟩
        = if ("1,570".data.filter (· != ',')).isEmpty ∧ (some "73".data) = none then none
          else some ⟨"U_AMOUNT", [("amount", some (.vfloat
              (decValue true ("1,570".data.filter (· != ','))
                (fracDigits (some "73".data)))))]⟩)
    ∧ amtChars true "1,570".data (some "73".data) = "-1,570.73".data
    ∧ decValue true ("1,570".data.filter (· != ','))
        (fracDigits (some "73".data)) = Rat.divInt (-157073) 100
    ∧ (castAmount ⟨"T_AMOUNT", [("T_AMOUNT", some (.vstr "T,".data)),
          ("amount", some (.vstr (amtChars false [','] none)))]⟩
        = if ([','].filter (· != ',')).isEmpty ∧ (none : Option (List Char)) = none then none
          else some ⟨"T_AMOUNT", [("amount", some (.vfloat
              (decValue false ([','].filter (· != ',')) (fracDigits none))))]⟩) :=
  ⟨amount_cast_strips_commas "U_AMOUNT" (Or.inr rfl)
      (some (.vstr "U-1,570.73".data)) true "1,570".data (some "73".data)
      (by decide) (by decide),
   by decide, by decide,
   amount_cast_strips_commas "T_AMOUNT" (Or.inl rfl)
      (some (.vstr "T,".data)) false [','] none (by decide) (by decide)⟩

/-- C9: parsing a string yields exactly the result of parsing its UTF-8
byte encoding: `parse` normalizes string input to bytes before scanning,
so both input forms take the same path. -/
theorem str_bytes_equiv (s : List Char) : parse (.str s) = parse (.bytes (utf8Encode s)) :=
  rfl

/-- C10: the empty string and the empty byte buffer both parse to the
empty transaction sequence with normal termination and no error. -/
theorem empty_input_parse : parse (.str []) = ⟨[], .ok⟩ ∧ parse (.bytes []) = ⟨[], .ok⟩ :=
  ⟨rfl, rfl⟩

end Claims

end QIF
